import Mathlib

/-!
# The AST layer of `ion` (`src/ion/ast.c`): node factory and S-expression printer

A shallow embedding of `ast.c`.

* A node is the C record: a kind tag next to the union of the per-kind payloads.
  `ast.h`, which declares the records and the kind enumerations, is not among the
  sources; the member names are the ones `ast.c` reads and writes.
* The two printers write to `stdout` with `printf`.  A call of a printer is
  embedded as the `Outcome` it has: the text it appended to the stream and how
  it ended.  Statements in sequence compose with `++` on outcomes.
* A C string (`const char *`) is embedded as the `String` of the characters in
  front of its terminator; every character of the output stands for one byte.
* Child pointers are embedded as the trees they point to, so null or dangling
  children are outside the model.
* Where the effect of a call on memory matters, the printers are embedded a second
  time as changes of state (`print_expr_st`, `print_type_st`): the state is the stream
  together with the tree under the node, which the node owns alone (no sharing, no
  cycles), and a call returns the tree as it is when the call returns.
-/

namespace Ion

/-! ## Kind tags -/

/-- Modelled from the spec: `ast.h` is absent, so the enumeration `TypespecKind` is
taken from the four tags `print_type` switches on ("kind ∈ {Name, Pointer, Array,
Function}"); `other tag` is any value of the tag outside those four. -/
inductive TypespecKind where
  | TYPESPEC_NAME
  | TYPESPEC_FUNC
  | TYPESPEC_ARRAY
  | TYPESPEC_PTR
  | other (tag : Nat)
  deriving DecidableEq, Repr

/-- Modelled from the spec: `ast.h` is absent, so the enumeration `ExprKind` is taken
from the twelve tags `print_expr` switches on ("kind ∈ {Int, Float, Str, Name, Cast,
Call, Index, Field, Unary, Binary, Ternary, Compound}"); `other tag` is any value of
the tag outside those twelve. -/
inductive ExprKind where
  | EXPR_INT
  | EXPR_FLOAT
  | EXPR_STR
  | EXPR_NAME
  | EXPR_CAST
  | EXPR_CALL
  | EXPR_INDEX
  | EXPR_FIELD
  | EXPR_COMPOUND
  | EXPR_UNARY
  | EXPR_BINARY
  | EXPR_TERNARY
  | other (tag : Nat)
  deriving DecidableEq, Repr

/-! ## Nodes -/

mutual
/-- The record `Typespec`: the kind tag and the union next to it. -/
inductive Typespec where
  | mk (kind : TypespecKind) (u : TypespecUnion)
/-- Modelled from the spec: the union inside `Typespec` ("exactly the fields for its
kind are populated"), one constructor per member that `ast.c` writes (`t->name`,
`t->ptr`, `t->array`, `t->func`); `zero` is the union as `xcalloc` leaves it, with no
member written. -/
inductive TypespecUnion where
  | zero
  | name (name : String)
  | ptr (elem : Typespec)
  | array (elem : Typespec) (size : Expr)
  | func (args : List Typespec) (num_args : Nat) (ret : Typespec)
/-- The record `Expr`: the kind tag and the union next to it. -/
inductive Expr where
  | mk (kind : ExprKind) (u : ExprUnion)
/-- Modelled from the spec: the union inside `Expr` ("payload per kind"), one
constructor per member that `ast.c` writes; `zero` is the union as `xcalloc` leaves
it.  `int_val` is a `uint64_t`, `float_val` the 64 bits of a `double`, `op` a
`TokenKind` passed as an `int`. -/
inductive ExprUnion where
  | zero
  | int_val (int_val : Nat)
  | float_val (float_val : Nat)
  | str_val (str_val : String)
  | name (name : String)
  | cast_expr (type : Typespec) (expr : Expr)
  | call_expr (expr : Expr) (args : List Expr) (num_args : Nat)
  | index_expr (expr : Expr) (index : Expr)
  | field_expr (expr : Expr) (name : String)
  | unary_expr (op : Int) (expr : Expr)
  | binary_expr (op : Int) (left : Expr) (right : Expr)
  | ternary_expr (cond : Expr) (if_true : Expr) (if_false : Expr)
end

/-- The tag `t->kind`. -/
def Typespec.kind : Typespec → TypespecKind
  | .mk kind _ => kind

/-- The union of `t`. -/
def Typespec.u : Typespec → TypespecUnion
  | .mk _ u => u

/-- An assignment `t->member = ...`: the union is overwritten, the tag stays. -/
def Typespec.store : Typespec → TypespecUnion → Typespec
  | .mk kind _, u => .mk kind u

/-- The tag `e->kind`. -/
def Expr.kind : Expr → ExprKind
  | .mk kind _ => kind

/-- The union of `e`. -/
def Expr.u : Expr → ExprUnion
  | .mk _ u => u

/-- An assignment `e->member = ...`: the union is overwritten, the tag stays. -/
def Expr.store : Expr → ExprUnion → Expr
  | .mk kind _, u => .mk kind u

/-! ## The node factory (`ast.c` lines 3-116) -/

/-- Function `typespec_alloc`: `xcalloc` gives a zeroed record, then the tag is set. -/
def typespec_alloc (kind : TypespecKind) : Typespec :=
  .mk kind .zero

def typespec_name (name : String) : Typespec :=
  (typespec_alloc .TYPESPEC_NAME).store (.name name)

def typespec_ptr (elem : Typespec) : Typespec :=
  (typespec_alloc .TYPESPEC_PTR).store (.ptr elem)

def typespec_array (elem : Typespec) (size : Expr) : Typespec :=
  (typespec_alloc .TYPESPEC_ARRAY).store (.array elem size)

/-- Function `typespec_func`: `args` is the array the pointer points to, `num_args` the count
passed next to it. -/
def typespec_func (args : List Typespec) (num_args : Nat) (ret : Typespec) : Typespec :=
  (typespec_alloc .TYPESPEC_FUNC).store (.func args num_args ret)

/-- Function `expr_alloc`: `xcalloc` gives a zeroed record, then the tag is set. -/
def expr_alloc (kind : ExprKind) : Expr :=
  .mk kind .zero

/-- Function `expr_int`: the parameter is a `uint64_t`. -/
def expr_int (int_val : Nat) : Expr :=
  (expr_alloc .EXPR_INT).store (.int_val (int_val % 2 ^ 64))

/-- Function `expr_float`: the parameter is a `double`, given by its 64 bits (IEEE 754
binary64: sign, 11 exponent bits, 52 fraction bits). -/
def expr_float (float_val : Nat) : Expr :=
  (expr_alloc .EXPR_FLOAT).store (.float_val (float_val % 2 ^ 64))

def expr_str (str_val : String) : Expr :=
  (expr_alloc .EXPR_STR).store (.str_val str_val)

def expr_name (name : String) : Expr :=
  (expr_alloc .EXPR_NAME).store (.name name)

def expr_cast (type : Typespec) (expr : Expr) : Expr :=
  (expr_alloc .EXPR_CAST).store (.cast_expr type expr)

/-- Function `expr_call`: `args` is the array the pointer points to, `num_args` the count
passed next to it. -/
def expr_call (expr : Expr) (args : List Expr) (num_args : Nat) : Expr :=
  (expr_alloc .EXPR_CALL).store (.call_expr expr args num_args)

def expr_index (expr : Expr) (index : Expr) : Expr :=
  (expr_alloc .EXPR_INDEX).store (.index_expr expr index)

def expr_field (expr : Expr) (name : String) : Expr :=
  (expr_alloc .EXPR_FIELD).store (.field_expr expr name)

def expr_unary (op : Int) (expr : Expr) : Expr :=
  (expr_alloc .EXPR_UNARY).store (.unary_expr op expr)

def expr_binary (op : Int) (left : Expr) (right : Expr) : Expr :=
  (expr_alloc .EXPR_BINARY).store (.binary_expr op left right)

def expr_ternary (cond : Expr) (if_true : Expr) (if_false : Expr) : Expr :=
  (expr_alloc .EXPR_TERNARY).store (.ternary_expr cond if_true if_false)

/-! ## Output -/

/-- How a run of printing statements ends.
* `done text`: it returned, having appended `text` to `stdout`;
* `fatal text`: `assert(0)` stopped the process after `text` had been passed to
  `printf`;
* `undefined`: the run left what the embedding describes: it read a union member
  other than the one stored, or read an argument array past its end. -/
inductive Outcome where
  | done (text : String)
  | fatal (text : String)
  | undefined
  deriving DecidableEq, Repr

/-- Two runs one after the other: the second runs only when the first returned. -/
def Outcome.seq : Outcome → Outcome → Outcome
  | .done a, .done b => .done (a ++ b)
  | .done a, .fatal b => .fatal (a ++ b)
  | .done _, .undefined => .undefined
  | .fatal a, _ => .fatal a
  | .undefined, _ => .undefined

instance : Append Outcome := ⟨Outcome.seq⟩

/-- A `printf` call whose formatted text is `text`. -/
def printf (text : String) : Outcome :=
  .done text

/-- The failing `assert(0)`. -/
def assert_0 : Outcome :=
  .fatal ""

/-! ### The conversions of the C library that the printers use -/

/-- The character of the decimal digit `d`. -/
def digit_char (d : Nat) : Char :=
  Char.ofNat (48 + d)

/-- The decimal digits of `v` in front of `acc`, most significant first; `fuel`
bounds the number of digits. -/
def dec_loop : Nat → Nat → List Char → List Char
  | 0, _, acc => acc
  | fuel + 1, v, acc =>
    if v / 10 = 0 then digit_char (v % 10) :: acc
    else dec_loop fuel (v / 10) (digit_char (v % 10) :: acc)

/-- The last `width` decimal digits of `v` in front of `acc`, leading zeros kept. -/
def pad_loop : Nat → Nat → List Char → List Char
  | 0, _, acc => acc
  | width + 1, v, acc => pad_loop width (v / 10) (digit_char (v % 10) :: acc)

/-- The conversion `"%" PRIu64` of the C library: the argument is a `uint64_t`,
written in decimal (at most 20 digits). -/
def fmt_u64 (v : Nat) : String :=
  String.mk (dec_loop 20 (v % 2 ^ 64) [])

/-- The conversion `%s`: the characters of the string. -/
def fmt_s (s : String) : String :=
  s

/-- The conversion `%c`: the `int` argument is converted to `unsigned char` and
that one character is written. -/
def fmt_c (c : Int) : String :=
  String.singleton (Char.ofNat (c % 256).toNat)

/-- Rounding of `num / den` to the nearest integer, ties to even. -/
def round_half_even (num den : Nat) : Nat :=
  let q := num / den
  let r := num % den
  if 2 * r < den then q
  else if den < 2 * r then q + 1
  else if q % 2 = 0 then q else q + 1

/-- The conversion `%f` of the C library on the 64 bits of a `double`, in the
default rounding mode: an infinity is written `inf`, a NaN `nan`, any other value in
decimal with six digits after the point, correctly rounded; a set sign bit gives a
leading `-`. -/
def fmt_f (bits : Nat) : String :=
  let sign := bits / 2 ^ 63 % 2
  let e := bits / 2 ^ 52 % 2048
  let frac := bits % 2 ^ 52
  let s := if sign = 1 then "-" else ""
  if e = 2047 then s ++ (if frac = 0 then "inf" else "nan")
  else
    let m := if e = 0 then frac else 2 ^ 52 + frac
    let ex := if e = 0 then 1 else e
    let q := round_half_even (m * 10 ^ 6 * 2 ^ (ex - 1075)) (2 ^ (1075 - ex))
    s ++ String.mk (dec_loop 310 (q / 10 ^ 6) ('.' :: pad_loop 6 (q % 10 ^ 6) []))

/-! ## The printers (`ast.c` lines 120-226) -/

mutual
/-- Function `print_type` (lines 120-153). -/
def print_type : Typespec → Outcome
  | .mk kind u =>
    match kind with
    | .TYPESPEC_NAME =>
      match u with
      | .name name => printf (fmt_s name)
      | _ => .undefined
    | .TYPESPEC_FUNC =>
      match u with
      | .func args num_args ret =>
        printf "(func (" ++ print_type_loop args num_args ++ printf ") " ++ print_type ret
          ++ printf ")"
      | _ => .undefined
    | .TYPESPEC_ARRAY =>
      match u with
      | .array elem size =>
        printf "(arr " ++ print_type elem ++ printf " " ++ print_expr size ++ printf ")"
      | _ => .undefined
    | .TYPESPEC_PTR =>
      match u with
      | .ptr elem => printf "(ptr " ++ print_type elem ++ printf ")"
      | _ => .undefined
    | .other _ => assert_0
/-- The loop of `print_type` over `t->func.args` (line 128): the list is the array
from `it` on, the number is the count of elements left before
`t->func.args + t->func.num_args`. -/
def print_type_loop : List Typespec → Nat → Outcome
  | _, 0 => printf ""
  | [], _ + 1 => .undefined
  | it :: rest, n + 1 => printf " " ++ print_type it ++ print_type_loop rest n
/-- Function `print_expr` (lines 155-226). -/
def print_expr : Expr → Outcome
  | .mk kind u =>
    match kind with
    | .EXPR_INT =>
      match u with
      | .int_val int_val => printf (fmt_u64 int_val)
      | _ => .undefined
    | .EXPR_FLOAT =>
      match u with
      | .float_val float_val => printf (fmt_f float_val)
      | _ => .undefined
    | .EXPR_STR =>
      match u with
      | .str_val str_val => printf ("\"" ++ fmt_s str_val ++ "\"")
      | _ => .undefined
    | .EXPR_NAME =>
      match u with
      | .name name => printf (fmt_s name)
      | _ => .undefined
    | .EXPR_CAST =>
      match u with
      | .cast_expr type expr =>
        printf "(cast " ++ print_type type ++ printf " " ++ print_expr expr ++ printf ")"
      | _ => .undefined
    | .EXPR_CALL =>
      match u with
      | .call_expr expr args num_args =>
        printf "(" ++ print_expr expr ++ print_expr_loop args num_args ++ printf ")"
      | _ => .undefined
    | .EXPR_INDEX =>
      match u with
      | .index_expr expr index =>
        printf "(index " ++ print_expr expr ++ printf " " ++ print_expr index ++ printf ")"
      | _ => .undefined
    | .EXPR_FIELD =>
      match u with
      | .field_expr expr name =>
        printf "(field " ++ print_expr expr ++ printf (" " ++ fmt_s name ++ ")")
      | _ => .undefined
    | .EXPR_COMPOUND => printf "(compound ...)"
    | .EXPR_UNARY =>
      match u with
      | .unary_expr op expr =>
        printf ("(" ++ fmt_c op ++ " ") ++ print_expr expr ++ printf ")"
      | _ => .undefined
    | .EXPR_BINARY =>
      match u with
      | .binary_expr op left right =>
        printf ("(" ++ fmt_c op ++ " ") ++ print_expr left ++ printf " " ++ print_expr right
          ++ printf ")"
      | _ => .undefined
    | .EXPR_TERNARY =>
      match u with
      | .ternary_expr cond if_true if_false =>
        printf "(if " ++ print_expr cond ++ printf " " ++ print_expr if_true ++ printf " "
          ++ print_expr if_false ++ printf ")"
      | _ => .undefined
    | .other _ => assert_0
/-- The loop of `print_expr` over `expr->call_expr.args` (line 180): the list is the
array from `it` on, the number is the count of elements left before
`expr->call_expr.args + expr->call_expr.num_args`. -/
def print_expr_loop : List Expr → Nat → Outcome
  | _, 0 => printf ""
  | [], _ + 1 => .undefined
  | it :: rest, n + 1 => printf " " ++ print_expr it ++ print_expr_loop rest n
end

/-- The trees of `expr_test` (lines 229-237), in order; `3.14` is the double with
bits `0x40091EB851EB851F`. -/
def expr_test_exprs : List Expr :=
  [ expr_binary 43 (expr_int 1) (expr_int 2),
    expr_unary 45 (expr_float 0x40091EB851EB851F),
    expr_ternary (expr_name "flag") (expr_str "true") (expr_str "false"),
    expr_field (expr_name "person") "name",
    expr_call (expr_name "fact") [expr_int 42] 1,
    expr_index (expr_field (expr_name "person") "siblings") (expr_int 3),
    expr_cast (typespec_ptr (typespec_name "int")) (expr_name "void_ptr") ]

/-! ## Trees -/

/-- A node of either record. -/
inductive Node where
  | type (t : Typespec)
  | expr (e : Expr)

/-- The nodes a union holds pointers to. -/
def TypespecUnion.children : TypespecUnion → List Node
  | .zero => []
  | .name _ => []
  | .ptr elem => [.type elem]
  | .array elem size => [.type elem, .expr size]
  | .func args _ ret => args.map Node.type ++ [.type ret]

/-- The nodes a union holds pointers to. -/
def ExprUnion.children : ExprUnion → List Node
  | .zero => []
  | .int_val _ => []
  | .float_val _ => []
  | .str_val _ => []
  | .name _ => []
  | .cast_expr type expr => [.type type, .expr expr]
  | .call_expr expr args _ => .expr expr :: args.map Node.expr
  | .index_expr expr index => [.expr expr, .expr index]
  | .field_expr expr _ => [.expr expr]
  | .unary_expr _ expr => [.expr expr]
  | .binary_expr _ left right => [.expr left, .expr right]
  | .ternary_expr cond if_true if_false => [.expr cond, .expr if_true, .expr if_false]

/-- The nodes the union of a node holds pointers to. -/
def Node.children : Node → List Node
  | .type (.mk _ u) => u.children
  | .expr (.mk _ u) => u.children

/-- The printer that matches the record: `print_type` or `print_expr`. -/
def print_node : Node → Outcome
  | .type t => print_type t
  | .expr e => print_expr e

/-- Whether the kind tag of a node is outside the kinds its printer switches on. -/
def Node.kind_unknown : Node → Bool
  | .type (.mk (.other _) _) => true
  | .expr (.mk (.other _) _) => true
  | _ => false

mutual
/-- All nodes of the tree under a typespec, the node itself first: every node a
union in it points to, whatever the kind tags and argument counts say. -/
def nodes_type : Typespec → List Node
  | .mk kind u =>
    .type (.mk kind u) ::
      match u with
      | .zero => []
      | .name _ => []
      | .ptr elem => nodes_type elem
      | .array elem size => nodes_type elem ++ nodes_expr size
      | .func args _ ret => nodes_type_list args ++ nodes_type ret
/-- All nodes of the trees under the elements of an argument array. -/
def nodes_type_list : List Typespec → List Node
  | [] => []
  | a :: rest => nodes_type a ++ nodes_type_list rest
/-- All nodes of the tree under an expression, the node itself first. -/
def nodes_expr : Expr → List Node
  | .mk kind u =>
    .expr (.mk kind u) ::
      match u with
      | .zero => []
      | .int_val _ => []
      | .float_val _ => []
      | .str_val _ => []
      | .name _ => []
      | .cast_expr type expr => nodes_type type ++ nodes_expr expr
      | .call_expr expr args _ => nodes_expr expr ++ nodes_expr_list args
      | .index_expr expr index => nodes_expr expr ++ nodes_expr index
      | .field_expr expr _ => nodes_expr expr
      | .unary_expr _ expr => nodes_expr expr
      | .binary_expr _ left right => nodes_expr left ++ nodes_expr right
      | .ternary_expr cond if_true if_false =>
        nodes_expr cond ++ nodes_expr if_true ++ nodes_expr if_false
/-- All nodes of the trees under the elements of an argument array. -/
def nodes_expr_list : List Expr → List Node
  | [] => []
  | a :: rest => nodes_expr a ++ nodes_expr_list rest
end

/-- All nodes of the tree under a node, the node itself first. -/
def Node.nodes : Node → List Node
  | .type t => nodes_type t
  | .expr e => nodes_expr e

/-! ## The traversal -/

/-- Whether a run returned to its caller. -/
def Outcome.returned : Outcome → Bool
  | .done _ => true
  | _ => false

/-- A run together with the nodes the printers were called on during it, in the
order of the calls. -/
structure Run where
  outcome : Outcome
  visited : List Node

/-- Two runs one after the other: the second one, and so its calls, happens only when
the first returned. -/
def Run.seq (a b : Run) : Run :=
  ⟨a.outcome ++ b.outcome, if a.outcome.returned then a.visited ++ b.visited else a.visited⟩

instance : Append Run := ⟨Run.seq⟩

/-- A statement that calls no printer (`printf`, `assert`). -/
def Run.stmt (o : Outcome) : Run :=
  ⟨o, []⟩

/-- A call of a printer on the node `n`, whose body runs as `body`. -/
def Run.call (n : Node) (body : Run) : Run :=
  ⟨body.outcome, n :: body.visited⟩

mutual
/-- Function `print_type` with its calls recorded. -/
def visit_type : Typespec → Run
  | .mk kind u =>
    Run.call (.type (.mk kind u))
      (match kind with
      | .TYPESPEC_NAME =>
        match u with
        | .name name => Run.stmt (printf (fmt_s name))
        | _ => Run.stmt .undefined
      | .TYPESPEC_FUNC =>
        match u with
        | .func args num_args ret =>
          Run.stmt (printf "(func (") ++ visit_type_loop args num_args ++ Run.stmt (printf ") ")
            ++ visit_type ret ++ Run.stmt (printf ")")
        | _ => Run.stmt .undefined
      | .TYPESPEC_ARRAY =>
        match u with
        | .array elem size =>
          Run.stmt (printf "(arr ") ++ visit_type elem ++ Run.stmt (printf " ")
            ++ visit_expr size ++ Run.stmt (printf ")")
        | _ => Run.stmt .undefined
      | .TYPESPEC_PTR =>
        match u with
        | .ptr elem => Run.stmt (printf "(ptr ") ++ visit_type elem ++ Run.stmt (printf ")")
        | _ => Run.stmt .undefined
      | .other _ => Run.stmt assert_0)
/-- The loop of `print_type` with its calls recorded. -/
def visit_type_loop : List Typespec → Nat → Run
  | _, 0 => Run.stmt (printf "")
  | [], _ + 1 => Run.stmt .undefined
  | it :: rest, n + 1 => Run.stmt (printf " ") ++ visit_type it ++ visit_type_loop rest n
/-- Function `print_expr` with its calls recorded. -/
def visit_expr : Expr → Run
  | .mk kind u =>
    Run.call (.expr (.mk kind u))
      (match kind with
      | .EXPR_INT =>
        match u with
        | .int_val int_val => Run.stmt (printf (fmt_u64 int_val))
        | _ => Run.stmt .undefined
      | .EXPR_FLOAT =>
        match u with
        | .float_val float_val => Run.stmt (printf (fmt_f float_val))
        | _ => Run.stmt .undefined
      | .EXPR_STR =>
        match u with
        | .str_val str_val => Run.stmt (printf ("\"" ++ fmt_s str_val ++ "\""))
        | _ => Run.stmt .undefined
      | .EXPR_NAME =>
        match u with
        | .name name => Run.stmt (printf (fmt_s name))
        | _ => Run.stmt .undefined
      | .EXPR_CAST =>
        match u with
        | .cast_expr type expr =>
          Run.stmt (printf "(cast ") ++ visit_type type ++ Run.stmt (printf " ")
            ++ visit_expr expr ++ Run.stmt (printf ")")
        | _ => Run.stmt .undefined
      | .EXPR_CALL =>
        match u with
        | .call_expr expr args num_args =>
          Run.stmt (printf "(") ++ visit_expr expr ++ visit_expr_loop args num_args
            ++ Run.stmt (printf ")")
        | _ => Run.stmt .undefined
      | .EXPR_INDEX =>
        match u with
        | .index_expr expr index =>
          Run.stmt (printf "(index ") ++ visit_expr expr ++ Run.stmt (printf " ")
            ++ visit_expr index ++ Run.stmt (printf ")")
        | _ => Run.stmt .undefined
      | .EXPR_FIELD =>
        match u with
        | .field_expr expr name =>
          Run.stmt (printf "(field ") ++ visit_expr expr
            ++ Run.stmt (printf (" " ++ fmt_s name ++ ")"))
        | _ => Run.stmt .undefined
      | .EXPR_COMPOUND => Run.stmt (printf "(compound ...)")
      | .EXPR_UNARY =>
        match u with
        | .unary_expr op expr =>
          Run.stmt (printf ("(" ++ fmt_c op ++ " ")) ++ visit_expr expr ++ Run.stmt (printf ")")
        | _ => Run.stmt .undefined
      | .EXPR_BINARY =>
        match u with
        | .binary_expr op left right =>
          Run.stmt (printf ("(" ++ fmt_c op ++ " ")) ++ visit_expr left ++ Run.stmt (printf " ")
            ++ visit_expr right ++ Run.stmt (printf ")")
        | _ => Run.stmt .undefined
      | .EXPR_TERNARY =>
        match u with
        | .ternary_expr cond if_true if_false =>
          Run.stmt (printf "(if ") ++ visit_expr cond ++ Run.stmt (printf " ")
            ++ visit_expr if_true ++ Run.stmt (printf " ") ++ visit_expr if_false
            ++ Run.stmt (printf ")")
        | _ => Run.stmt .undefined
      | .other _ => Run.stmt assert_0)
/-- The loop of `print_expr` with its calls recorded. -/
def visit_expr_loop : List Expr → Nat → Run
  | _, 0 => Run.stmt (printf "")
  | [], _ + 1 => Run.stmt .undefined
  | it :: rest, n + 1 => Run.stmt (printf " ") ++ visit_expr it ++ visit_expr_loop rest n
end

/-- The recorded run of the printer that matches the record. -/
def visit_node : Node → Run
  | .type t => visit_type t
  | .expr e => visit_expr e

/-- A run ends in `assert(0)` exactly when a printer was called on a node whose kind
tag is outside the known kinds. -/
def Run.fatal_iff_unknown (r : Run) : Prop :=
  (∃ t, r.outcome = Outcome.fatal t) ↔ ∃ n ∈ r.visited, n.kind_unknown = true

/-! ## The printers as changes of state -/

/-- A `printf` call on the process in state `σ` (the text on `stdout` so far, or how
the process ended): the text is appended when the process still runs. -/
def printf_on (text : String) (σ : Outcome) : Outcome :=
  σ ++ printf text

mutual
/-- Function `print_type` as a change of state, statement by statement.  The state is
what `stdout` holds (or how the process ended) together with the tree under the node,
as memory holds it: the node is reached through a pointer that is not `const`, so the
result carries the tree as it is when the call returns, each child being what the call
on it left.  No statement of the printers stores through the pointer, so a node comes
back with the kind and the members it was read with; where the outcome is `undefined`
the tree says nothing about memory. -/
def print_type_st : Typespec → Outcome → Outcome × Typespec
  | .mk kind u, σ =>
    match kind with
    | .TYPESPEC_NAME =>
      match u with
      | .name name => (printf_on (fmt_s name) σ, .mk kind (.name name))
      | _ => (σ ++ Outcome.undefined, .mk kind u)
    | .TYPESPEC_FUNC =>
      match u with
      | .func args num_args ret =>
        let r1 := print_type_loop_st args num_args (printf_on "(func (" σ)
        let r2 := print_type_st ret (printf_on ") " r1.1)
        (printf_on ")" r2.1, .mk kind (.func r1.2 num_args r2.2))
      | _ => (σ ++ Outcome.undefined, .mk kind u)
    | .TYPESPEC_ARRAY =>
      match u with
      | .array elem size =>
        let r1 := print_type_st elem (printf_on "(arr " σ)
        let r2 := print_expr_st size (printf_on " " r1.1)
        (printf_on ")" r2.1, .mk kind (.array r1.2 r2.2))
      | _ => (σ ++ Outcome.undefined, .mk kind u)
    | .TYPESPEC_PTR =>
      match u with
      | .ptr elem =>
        let r1 := print_type_st elem (printf_on "(ptr " σ)
        (printf_on ")" r1.1, .mk kind (.ptr r1.2))
      | _ => (σ ++ Outcome.undefined, .mk kind u)
    | .other _ => (σ ++ assert_0, .mk kind u)
/-- The loop of `print_type` as a change of state: the stream, and the array elements
as the calls on them left them. -/
def print_type_loop_st : List Typespec → Nat → Outcome → Outcome × List Typespec
  | args, 0, σ => (σ, args)
  | [], _ + 1, σ => (σ ++ Outcome.undefined, [])
  | it :: rest, n + 1, σ =>
    let r1 := print_type_st it (printf_on " " σ)
    let r2 := print_type_loop_st rest n r1.1
    (r2.1, r1.2 :: r2.2)
/-- Function `print_expr` as a change of state, statement by statement: the stream and
the tree under the node as it is when the call returns. -/
def print_expr_st : Expr → Outcome → Outcome × Expr
  | .mk kind u, σ =>
    match kind with
    | .EXPR_INT =>
      match u with
      | .int_val int_val => (printf_on (fmt_u64 int_val) σ, .mk kind (.int_val int_val))
      | _ => (σ ++ Outcome.undefined, .mk kind u)
    | .EXPR_FLOAT =>
      match u with
      | .float_val float_val => (printf_on (fmt_f float_val) σ, .mk kind (.float_val float_val))
      | _ => (σ ++ Outcome.undefined, .mk kind u)
    | .EXPR_STR =>
      match u with
      | .str_val str_val =>
        (printf_on ("\"" ++ fmt_s str_val ++ "\"") σ, .mk kind (.str_val str_val))
      | _ => (σ ++ Outcome.undefined, .mk kind u)
    | .EXPR_NAME =>
      match u with
      | .name name => (printf_on (fmt_s name) σ, .mk kind (.name name))
      | _ => (σ ++ Outcome.undefined, .mk kind u)
    | .EXPR_CAST =>
      match u with
      | .cast_expr type expr =>
        let r1 := print_type_st type (printf_on "(cast " σ)
        let r2 := print_expr_st expr (printf_on " " r1.1)
        (printf_on ")" r2.1, .mk kind (.cast_expr r1.2 r2.2))
      | _ => (σ ++ Outcome.undefined, .mk kind u)
    | .EXPR_CALL =>
      match u with
      | .call_expr expr args num_args =>
        let r1 := print_expr_st expr (printf_on "(" σ)
        let r2 := print_expr_loop_st args num_args r1.1
        (printf_on ")" r2.1, .mk kind (.call_expr r1.2 r2.2 num_args))
      | _ => (σ ++ Outcome.undefined, .mk kind u)
    | .EXPR_INDEX =>
      match u with
      | .index_expr expr index =>
        let r1 := print_expr_st expr (printf_on "(index " σ)
        let r2 := print_expr_st index (printf_on " " r1.1)
        (printf_on ")" r2.1, .mk kind (.index_expr r1.2 r2.2))
      | _ => (σ ++ Outcome.undefined, .mk kind u)
    | .EXPR_FIELD =>
      match u with
      | .field_expr expr name =>
        let r1 := print_expr_st expr (printf_on "(field " σ)
        (printf_on (" " ++ fmt_s name ++ ")") r1.1, .mk kind (.field_expr r1.2 name))
      | _ => (σ ++ Outcome.undefined, .mk kind u)
    | .EXPR_COMPOUND => (printf_on "(compound ...)" σ, .mk kind u)
    | .EXPR_UNARY =>
      match u with
      | .unary_expr op expr =>
        let r1 := print_expr_st expr (printf_on ("(" ++ fmt_c op ++ " ") σ)
        (printf_on ")" r1.1, .mk kind (.unary_expr op r1.2))
      | _ => (σ ++ Outcome.undefined, .mk kind u)
    | .EXPR_BINARY =>
      match u with
      | .binary_expr op left right =>
        let r1 := print_expr_st left (printf_on ("(" ++ fmt_c op ++ " ") σ)
        let r2 := print_expr_st right (printf_on " " r1.1)
        (printf_on ")" r2.1, .mk kind (.binary_expr op r1.2 r2.2))
      | _ => (σ ++ Outcome.undefined, .mk kind u)
    | .EXPR_TERNARY =>
      match u with
      | .ternary_expr cond if_true if_false =>
        let r1 := print_expr_st cond (printf_on "(if " σ)
        let r2 := print_expr_st if_true (printf_on " " r1.1)
        let r3 := print_expr_st if_false (printf_on " " r2.1)
        (printf_on ")" r3.1, .mk kind (.ternary_expr r1.2 r2.2 r3.2))
      | _ => (σ ++ Outcome.undefined, .mk kind u)
    | .other _ => (σ ++ assert_0, .mk kind u)
/-- The loop of `print_expr` as a change of state: the stream, and the array elements
as the calls on them left them. -/
def print_expr_loop_st : List Expr → Nat → Outcome → Outcome × List Expr
  | args, 0, σ => (σ, args)
  | [], _ + 1, σ => (σ ++ Outcome.undefined, [])
  | it :: rest, n + 1, σ =>
    let r1 := print_expr_st it (printf_on " " σ)
    let r2 := print_expr_loop_st rest n r1.1
    (r2.1, r1.2 :: r2.2)
end

/-- The printer that matches the record, as a change of state: the stream and the
tree under the node after the call. -/
def print_node_st : Node → Outcome → Outcome × Node
  | .type t, σ => ((print_type_st t σ).1, .type (print_type_st t σ).2)
  | .expr e, σ => ((print_expr_st e σ).1, .expr (print_expr_st e σ).2)

/-! ## The constructors of the factory -/

/-- A call of one of the four typespec constructors that `ast.c` defines (lines
9-34), with its arguments. -/
inductive TypespecCtor where
  | typespec_name (name : String)
  | typespec_ptr (elem : Typespec)
  | typespec_array (elem : Typespec) (size : Expr)
  | typespec_func (args : List Typespec) (num_args : Nat) (ret : Typespec)

/-- The node the call returns. -/
def TypespecCtor.result : TypespecCtor → Typespec
  | .typespec_name name => Ion.typespec_name name
  | .typespec_ptr elem => Ion.typespec_ptr elem
  | .typespec_array elem size => Ion.typespec_array elem size
  | .typespec_func args num_args ret => Ion.typespec_func args num_args ret

/-- A call of one of the eleven expression constructors that `ast.c` defines (lines
42-116), with its arguments. -/
inductive ExprCtor where
  | expr_int (int_val : Nat)
  | expr_float (float_val : Nat)
  | expr_str (str_val : String)
  | expr_name (name : String)
  | expr_cast (type : Typespec) (expr : Expr)
  | expr_call (expr : Expr) (args : List Expr) (num_args : Nat)
  | expr_index (expr : Expr) (index : Expr)
  | expr_field (expr : Expr) (name : String)
  | expr_unary (op : Int) (expr : Expr)
  | expr_binary (op : Int) (left : Expr) (right : Expr)
  | expr_ternary (cond : Expr) (if_true : Expr) (if_false : Expr)

/-- The node the call returns. -/
def ExprCtor.result : ExprCtor → Expr
  | .expr_int int_val => Ion.expr_int int_val
  | .expr_float float_val => Ion.expr_float float_val
  | .expr_str str_val => Ion.expr_str str_val
  | .expr_name name => Ion.expr_name name
  | .expr_cast type expr => Ion.expr_cast type expr
  | .expr_call expr args num_args => Ion.expr_call expr args num_args
  | .expr_index expr index => Ion.expr_index expr index
  | .expr_field expr name => Ion.expr_field expr name
  | .expr_unary op expr => Ion.expr_unary op expr
  | .expr_binary op left right => Ion.expr_binary op left right
  | .expr_ternary cond if_true if_false => Ion.expr_ternary cond if_true if_false

/-- The trees built only by the constructors of the factory, from children that are
such trees, with every argument count equal to the length of its argument array. -/
inductive Built : Node → Prop where
  | typespec_name (name : String) : Built (.type (typespec_name name))
  | typespec_ptr (elem : Typespec) : Built (.type elem) → Built (.type (typespec_ptr elem))
  | typespec_array (elem : Typespec) (size : Expr) :
    Built (.type elem) → Built (.expr size) → Built (.type (typespec_array elem size))
  | typespec_func (args : List Typespec) (ret : Typespec) :
    (∀ a ∈ args, Built (.type a)) → Built (.type ret) →
      Built (.type (typespec_func args args.length ret))
  | expr_int (int_val : Nat) : Built (.expr (expr_int int_val))
  | expr_float (float_val : Nat) : Built (.expr (expr_float float_val))
  | expr_str (str_val : String) : Built (.expr (expr_str str_val))
  | expr_name (name : String) : Built (.expr (expr_name name))
  | expr_cast (type : Typespec) (expr : Expr) :
    Built (.type type) → Built (.expr expr) → Built (.expr (expr_cast type expr))
  | expr_call (expr : Expr) (args : List Expr) :
    Built (.expr expr) → (∀ a ∈ args, Built (.expr a)) →
      Built (.expr (expr_call expr args args.length))
  | expr_index (expr : Expr) (index : Expr) :
    Built (.expr expr) → Built (.expr index) → Built (.expr (expr_index expr index))
  | expr_field (expr : Expr) (name : String) :
    Built (.expr expr) → Built (.expr (expr_field expr name))
  | expr_unary (op : Int) (expr : Expr) :
    Built (.expr expr) → Built (.expr (expr_unary op expr))
  | expr_binary (op : Int) (left : Expr) (right : Expr) :
    Built (.expr left) → Built (.expr right) → Built (.expr (expr_binary op left right))
  | expr_ternary (cond : Expr) (if_true : Expr) (if_false : Expr) :
    Built (.expr cond) → Built (.expr if_true) → Built (.expr if_false) →
      Built (.expr (expr_ternary cond if_true if_false))

/-- Whether the kind tag of a node is one of the known kinds other than Compound. -/
def Node.kind_of_factory : Node → Bool
  | .type (.mk (.other _) _) => false
  | .type _ => true
  | .expr (.mk (.other _) _) => false
  | .expr (.mk .EXPR_COMPOUND _) => false
  | .expr _ => true

/-! ## Floating-point literals -/

/-- The magnitude of the finite `double` with the given 64 bits, in millionths, rounded
to the nearest integer, ties to even: the significand `m` and the exponent `ex` give
the value `m * 2 ^ (ex - 1075)`. -/
def millionths (bits : Nat) : Nat :=
  let e := bits / 2 ^ 52 % 2048
  let frac := bits % 2 ^ 52
  let m := if e = 0 then frac else 2 ^ 52 + frac
  let ex := if e = 0 then 1 else e
  round_half_even (m * 10 ^ 6 * 2 ^ (ex - 1075)) (2 ^ (1075 - ex))

/-! ## Properties of the printed text -/

/-- A text that is not empty and does not end in a space. -/
def ends_well (l : List Char) : Bool :=
  match l.getLast? with
  | none => false
  | some c => c != ' '

/-- Whether the name, identifier or field name a node holds is not empty and does not
end in a space. -/
def Node.names_end_well : Node → Bool
  | .type (.mk _ (.name name)) => ends_well name.data
  | .expr (.mk _ (.name name)) => ends_well name.data
  | .expr (.mk _ (.field_expr _ name)) => ends_well name.data
  | _ => true

/-- Whether the kind tag of a node is one of the composite kinds: Pointer, Array,
Function; Cast, Call, Index, Field, Unary, Binary, Ternary. -/
def Node.composite : Node → Bool
  | .type (.mk .TYPESPEC_PTR _) => true
  | .type (.mk .TYPESPEC_ARRAY _) => true
  | .type (.mk .TYPESPEC_FUNC _) => true
  | .expr (.mk .EXPR_CAST _) => true
  | .expr (.mk .EXPR_CALL _) => true
  | .expr (.mk .EXPR_INDEX _) => true
  | .expr (.mk .EXPR_FIELD _) => true
  | .expr (.mk .EXPR_UNARY _) => true
  | .expr (.mk .EXPR_BINARY _) => true
  | .expr (.mk .EXPR_TERNARY _) => true
  | _ => false

/-- A text without parentheses. -/
def paren_free (l : List Char) : Bool :=
  l.all fun c => c != '(' && c != ')'

/-- Whether a node is not a Float node and holds no name, string value, field name or
operator character with a parenthesis in it. -/
def Node.paren_ok : Node → Bool
  | .type (.mk _ (.name name)) => paren_free name.data
  | .type _ => true
  | .expr (.mk kind u) =>
    decide (kind ≠ ExprKind.EXPR_FLOAT) &&
      match u with
      | .str_val str_val => paren_free str_val.data
      | .name name => paren_free name.data
      | .field_expr _ name => paren_free name.data
      | .unary_expr op _ => paren_free (fmt_c op).data
      | .binary_expr op _ _ => paren_free (fmt_c op).data
      | _ => true

/-- Balanced parentheses: as many `(` as `)` in the text, and in every prefix of it at
least as many `(` as `)`. -/
def balanced (l : List Char) : Prop :=
  l.count '(' = l.count ')' ∧ ∀ k, (l.take k).count ')' ≤ (l.take k).count '('

/-! ## Sequencing of outcomes -/

theorem done_append_done (a b : String) :
    Outcome.done a ++ Outcome.done b = Outcome.done (a ++ b) :=
  rfl

theorem printf_append_done (a b : String) : printf a ++ Outcome.done b = Outcome.done (a ++ b) :=
  rfl

theorem done_append_printf (a b : String) : Outcome.done a ++ printf b = Outcome.done (a ++ b) :=
  rfl

theorem join_cons (a : String) (l : List String) : String.join (a :: l) = a ++ String.join l := by
  apply String.ext
  simp [String.join_eq]

theorem join_append (l r : List String) :
    String.join (l ++ r) = String.join l ++ String.join r := by
  induction l with
  | nil => simp [String.join]
  | cons a l ih => rw [List.cons_append, join_cons, join_cons, ih, String.append_assoc]

/-- The argument loop of `print_expr`, run over a whole array whose elements all
print: every element is written after one space, in order. -/
theorem print_expr_loop_done (args : List Expr) (ts : List String)
    (h : List.Forall₂ (fun a t => print_expr a = Outcome.done t) args ts) :
    print_expr_loop args args.length
      = Outcome.done (String.join (ts.map fun t => " " ++ t)) := by
  induction h with
  | nil => rfl
  | cons ha _ ih =>
    rw [List.length_cons, print_expr_loop, ha, ih, List.map_cons, join_cons]
    rfl

/-- The argument loop of `print_type`, run over a whole array whose elements all
print: every element is written after one space, in order. -/
theorem print_type_loop_done (args : List Typespec) (ts : List String)
    (h : List.Forall₂ (fun a t => print_type a = Outcome.done t) args ts) :
    print_type_loop args args.length
      = Outcome.done (String.join (ts.map fun t => " " ++ t)) := by
  induction h with
  | nil => rfl
  | cons ha _ ih =>
    rw [List.length_cons, print_type_loop, ha, ih, List.map_cons, join_cons]
    rfl

/-- An ASCII character passed as an `int` comes back from `%c` unchanged. -/
theorem fmt_c_ascii (c : Char) (hc : c.toNat < 128) : fmt_c (c.toNat : Int) = c.toString := by
  have h : ((c.toNat : Int) % 256).toNat = c.toNat := by omega
  rw [fmt_c, h, Char.ofNat_toNat]
  rfl

/-! ## Call (C1) -/

/-- C1: for a callee `f` that prints as `tf` and arguments `a1..an` that print as
`t1..tn`, `print_expr (expr_call f [a1..an] n)` emits `(`, then `tf`, then for each
argument in order one space and its text, then `)`; with no argument the text is
`(` ++ `tf` ++ `)`. -/
theorem print_expr_call (f : Expr) (args : List Expr) (tf : String) (ts : List String)
    (hf : print_expr f = Outcome.done tf)
    (hargs : List.Forall₂ (fun a t => print_expr a = Outcome.done t) args ts) :
    print_expr (expr_call f args args.length)
        = Outcome.done ("(" ++ tf ++ String.join (ts.map fun t => " " ++ t) ++ ")")
      ∧ (args = [] → print_expr (expr_call f args args.length)
          = Outcome.done ("(" ++ tf ++ ")")) := by
  have key : print_expr (expr_call f args args.length)
      = Outcome.done ("(" ++ tf ++ String.join (ts.map fun t => " " ++ t) ++ ")") := by
    rw [expr_call, expr_alloc, Expr.store, print_expr, hf, print_expr_loop_done args ts hargs]
    rfl
  refine ⟨key, ?_⟩
  intro hnil
  subst hnil
  cases hargs
  rw [key]
  show Outcome.done ("(" ++ tf ++ "" ++ ")") = _
  rw [String.append_empty]

/-- C1 at `Call(Name("fact"), [Int(42)])`: the text is `(fact 42)`. -/
theorem print_expr_call_witness :
    print_expr (expr_call (expr_name "fact") [expr_int 42] 1) = Outcome.done "(fact 42)" :=
  (print_expr_call (expr_name "fact") [expr_int 42] "fact" ["42"] (by decide)
    (List.Forall₂.cons (by decide) List.Forall₂.nil)).1

/-! ## Function typespec (C2) -/

/-- What `print_type` does on a function typespec whose argument types print as
`t1..tn`: the loop writes a space in front of every argument type, the first one
included, so the text is `(func (` ++ ` t1` ++ .. ++ ` tn` ++ `) ` ++ `tr` ++ `)`. -/
theorem print_type_func (args : List Typespec) (ret : Typespec) (ts : List String)
    (tr : String) (hargs : List.Forall₂ (fun a t => print_type a = Outcome.done t) args ts)
    (hret : print_type ret = Outcome.done tr) :
    print_type (typespec_func args args.length ret)
      = Outcome.done ("(func (" ++ String.join (ts.map fun t => " " ++ t) ++ ") " ++ tr ++ ")") := by
  rw [typespec_func, typespec_alloc, Typespec.store, print_type, hret,
    print_type_loop_done args ts hargs]
  rfl

/-- C2 at `typespec_func([int], 1, int)`: the code prints `(func ( int) int)`, with a
space after the parenthesis that opens the argument list, where the claimed form is
`(func (int) int)`. -/
theorem print_type_func_leading_space :
    print_type (typespec_func [typespec_name "int"] 1 (typespec_name "int"))
        = Outcome.done "(func ( int) int)"
      ∧ print_type (typespec_func [typespec_name "int"] 1 (typespec_name "int"))
        ≠ Outcome.done "(func (int) int)" := by
  decide

/-! ## Binary (C3) -/

/-- C3: for an ASCII character `c` used as operator code and operands that print as
`tl` and `tr`, `print_expr (expr_binary c l r)` emits `(`, the character `c`, a space,
`tl`, a space, `tr` and `)`. -/
theorem print_expr_binary (c : Char) (l r : Expr) (tl tr : String) (hc : c.toNat < 128)
    (hl : print_expr l = Outcome.done tl) (hr : print_expr r = Outcome.done tr) :
    print_expr (expr_binary (c.toNat : Int) l r)
      = Outcome.done ("(" ++ c.toString ++ " " ++ tl ++ " " ++ tr ++ ")") := by
  rw [expr_binary, expr_alloc, Expr.store, print_expr, hl, hr, fmt_c_ascii c hc]
  rfl

/-- C3 at `Binary('+', Int(1), Int(2))`: the text is `(+ 1 2)`. -/
theorem print_expr_binary_witness :
    print_expr (expr_binary 43 (expr_int 1) (expr_int 2)) = Outcome.done "(+ 1 2)" :=
  print_expr_binary '+' (expr_int 1) (expr_int 2) "1" "2" (by decide) (by decide) (by decide)

/-! ## Unary (C4) -/

/-- One `expr_unary` node around an operand that prints as `t`. -/
theorem print_expr_unary_done (c : Char) (e : Expr) (t : String) (hc : c.toNat < 128)
    (he : print_expr e = Outcome.done t) :
    print_expr (expr_unary (c.toNat : Int) e)
      = Outcome.done ("(" ++ c.toString ++ " " ++ t ++ ")") := by
  rw [expr_unary, expr_alloc, Expr.store, print_expr, he, fmt_c_ascii c hc]
  rfl

theorem join_replicate_succ (n : Nat) (a : String) :
    String.join (List.replicate (n + 1) a) = String.join (List.replicate n a) ++ a := by
  rw [List.replicate_succ', join_append, join_cons]
  show _ ++ (a ++ "") = _
  rw [String.append_empty]

/-- C4: for an ASCII operator character `c` and an operand `e` that prints as `t`,
`e` wrapped in `n` nested `expr_unary(c, .)` nodes prints as `n` copies of
`(` ++ `c` ++ space, then `t`, then `n` copies of `)`. -/
theorem print_expr_unary_nested (n : Nat) (c : Char) (e : Expr) (t : String)
    (hc : c.toNat < 128) (he : print_expr e = Outcome.done t) :
    print_expr ((expr_unary (c.toNat : Int))^[n] e)
      = Outcome.done (String.join (List.replicate n ("(" ++ c.toString ++ " ")) ++ t
          ++ String.join (List.replicate n ")")) := by
  induction n with
  | zero =>
    rw [Function.iterate_zero, id, he]
    show _ = Outcome.done ("" ++ t ++ "")
    rw [String.empty_append, String.append_empty]
  | succ n ih =>
    rw [Function.iterate_succ_apply', print_expr_unary_done c _ _ hc ih,
      join_replicate_succ n ")", List.replicate_succ, join_cons]
    simp only [String.append_assoc]

/-- C4 at `Unary('-', Float(3.14))`, one level of nesting: the text is `(- ` followed
by the text of the float and `)`. -/
theorem print_expr_unary_nested_witness :
    print_expr (expr_unary 45 (expr_float 0x40091EB851EB851F))
      = Outcome.done ("(- " ++ fmt_f 0x40091EB851EB851F ++ ")") :=
  print_expr_unary_nested 1 '-' (expr_float 0x40091EB851EB851F) (fmt_f 0x40091EB851EB851F)
    (by decide) rfl

/-! ## Cast and pointer typespec (C5) -/

/-- C5: for a typespec `t` that prints as `tt` and an operand `e` that prints as `te`,
`print_expr (expr_cast t e)` emits `(cast `, `tt`, a space, `te` and `)`; and for a
typespec `u` that prints as `tu`, `print_type (typespec_ptr u)` emits `(ptr `, `tu`
and `)`. -/
theorem print_expr_cast (t : Typespec) (e : Expr) (tt te : String)
    (ht : print_type t = Outcome.done tt) (he : print_expr e = Outcome.done te) :
    print_expr (expr_cast t e) = Outcome.done ("(cast " ++ tt ++ " " ++ te ++ ")")
      ∧ ∀ (u : Typespec) (tu : String), print_type u = Outcome.done tu →
          print_type (typespec_ptr u) = Outcome.done ("(ptr " ++ tu ++ ")") := by
  constructor
  · rw [expr_cast, expr_alloc, Expr.store, print_expr, ht, he]
    rfl
  · intro u tu hu
    rw [typespec_ptr, typespec_alloc, Typespec.store, print_type, hu]
    rfl

/-- C5 at `Cast(Pointer(Name("int")), Name("void_ptr"))`: the text is
`(cast (ptr int) void_ptr)`, the pointer typespec inside printing as `(ptr int)`. -/
theorem print_expr_cast_witness :
    print_expr (expr_cast (typespec_ptr (typespec_name "int")) (expr_name "void_ptr"))
        = Outcome.done "(cast (ptr int) void_ptr)"
      ∧ print_type (typespec_ptr (typespec_name "int")) = Outcome.done "(ptr int)" :=
  have h := print_expr_cast (typespec_ptr (typespec_name "int")) (expr_name "void_ptr")
    "(ptr int)" "void_ptr" (by decide) (by decide)
  ⟨h.1, h.2 (typespec_name "int") "int" (by decide)⟩

/-! ## Index (C6) -/

/-- C6: for a base `b` that prints as `tb` and an index `i` that prints as `ti`,
`print_expr (expr_index b i)` emits `(index `, `tb`, a space, `ti` and `)`. -/
theorem print_expr_index (b i : Expr) (tb ti : String)
    (hb : print_expr b = Outcome.done tb) (hi : print_expr i = Outcome.done ti) :
    print_expr (expr_index b i) = Outcome.done ("(index " ++ tb ++ " " ++ ti ++ ")") := by
  rw [expr_index, expr_alloc, Expr.store, print_expr, hb, hi]
  rfl

/-- C6 at `Index(Field(Name("person"), "siblings"), Int(3))`: the text is
`(index (field person siblings) 3)`. -/
theorem print_expr_index_witness :
    print_expr (expr_index (expr_field (expr_name "person") "siblings") (expr_int 3))
      = Outcome.done "(index (field person siblings) 3)" :=
  print_expr_index (expr_field (expr_name "person") "siblings") (expr_int 3)
    "(field person siblings)" "3" (by decide) (by decide)

/-! ## Field (C7) -/

/-- C7: for a base `b` that prints as `tb` and a field name `s`,
`print_expr (expr_field b s)` emits `(field `, `tb`, a space, the characters of `s`
as they are, and `)`. -/
theorem print_expr_field (b : Expr) (s tb : String) (hb : print_expr b = Outcome.done tb) :
    print_expr (expr_field b s) = Outcome.done ("(field " ++ tb ++ " " ++ s ++ ")") := by
  rw [expr_field, expr_alloc, Expr.store, print_expr, hb, fmt_s, printf_append_done,
    done_append_printf]
  simp only [String.append_assoc]

/-- C7 at `Field(Name("person"), "name")`: the text is `(field person name)`. -/
theorem print_expr_field_witness :
    print_expr (expr_field (expr_name "person") "name") = Outcome.done "(field person name)" :=
  print_expr_field (expr_name "person") "name" "person" (by decide)

/-! ## Ternary (C8) -/

/-- C8: for a condition `c`, a then-branch `t` and an else-branch `f` that print as
`tc`, `tt` and `tf`, `print_expr (expr_ternary c t f)` emits `(if `, `tc`, a space,
`tt`, a space, `tf` and `)`. -/
theorem print_expr_ternary (c t f : Expr) (tc tt tf : String)
    (hc : print_expr c = Outcome.done tc) (ht : print_expr t = Outcome.done tt)
    (hf : print_expr f = Outcome.done tf) :
    print_expr (expr_ternary c t f)
      = Outcome.done ("(if " ++ tc ++ " " ++ tt ++ " " ++ tf ++ ")") := by
  rw [expr_ternary, expr_alloc, Expr.store, print_expr, hc, ht, hf]
  rfl

/-- C8 at `Ternary(Name("flag"), Str("true"), Str("false"))`: the text is
`(if flag "true" "false")`. -/
theorem print_expr_ternary_witness :
    print_expr (expr_ternary (expr_name "flag") (expr_str "true") (expr_str "false"))
      = Outcome.done "(if flag \"true\" \"false\")" :=
  print_expr_ternary (expr_name "flag") (expr_str "true") (expr_str "false")
    "flag" "\"true\"" "\"false\"" (by decide) (by decide) (by decide)

/-! ## String literal (C10) -/

/-- C10: for every string `s`, `print_expr (expr_str s)` emits a double quote, the
characters of `s` as they are, and a double quote; the text has `s.length + 2`
characters. -/
theorem print_expr_str (s : String) :
    print_expr (expr_str s) = Outcome.done ("\"" ++ s ++ "\"")
      ∧ ("\"" ++ s ++ "\"").length = s.length + 2
      ∧ ("\"" ++ s ++ "\"").data = Char.ofNat 34 :: (s.data ++ [Char.ofNat 34]) := by
  refine ⟨rfl, ?_, ?_⟩
  · rw [String.length_append, String.length_append]
    show 1 + s.length + 1 = s.length + 2
    omega
  · simp [String.data_append]

/-! ## Integer literal (C9) -/

/-- The characters of the ten digits: each is a digit, has the digit as its value, and
is `0` only for the digit zero. -/
theorem digit_char_spec (d : Nat) (hd : d < 10) :
    (digit_char d).isDigit = true ∧ (digit_char d).toNat - '0'.toNat = d
      ∧ (digit_char d = '0' → d = 0) := by
  interval_cases d <;> decide

/-- With enough fuel `dec_loop` puts in front of the accumulator the decimal numeral
of `v`: a non-empty run of digits, starting with `0` only when `v = 0`, whose value
is `v`. -/
theorem dec_loop_spec (fuel : Nat) : ∀ (v : Nat) (acc : List Char), v < 10 ^ fuel → 0 < fuel →
    ∃ ds : List Char, dec_loop fuel v acc = ds ++ acc ∧ ds ≠ []
      ∧ (∀ c ∈ ds, c.isDigit = true)
      ∧ (ds.head? = some '0' → v = 0)
      ∧ (v = 0 → ds = ['0'])
      ∧ ds.foldl (fun n c => n * 10 + (c.toNat - '0'.toNat)) 0 = v := by
  induction fuel with
  | zero => intro v acc _ h; exact absurd h (Nat.lt_irrefl 0)
  | succ fuel ih =>
    intro v acc hv _
    have hd := digit_char_spec (v % 10) (Nat.mod_lt v (by decide))
    by_cases hsmall : v / 10 = 0
    · have hlt : v < 10 := by omega
      have hmod : v % 10 = v := Nat.mod_eq_of_lt hlt
      rw [hmod] at hd
      refine ⟨[digit_char v], ?_, by simp, ?_, ?_, ?_, ?_⟩
      · rw [dec_loop, if_pos hsmall, hmod]
        rfl
      · intro c hc
        rw [List.mem_singleton] at hc
        rw [hc]
        exact hd.1
      · intro h
        rw [List.head?_cons, Option.some.injEq] at h
        exact hd.2.2 h
      · intro h0
        rw [h0]
        rfl
      · rw [List.foldl_cons, List.foldl_nil, Nat.zero_mul, Nat.zero_add]
        exact hd.2.1
    · have hfuel : 0 < fuel := by
        rcases Nat.eq_zero_or_pos fuel with h0 | h0
        · rw [h0] at hv
          omega
        · exact h0
      have hdiv : v / 10 < 10 ^ fuel := by
        rw [Nat.div_lt_iff_lt_mul (by decide)]
        rw [pow_succ] at hv
        exact hv
      obtain ⟨ds, hrun, hne, hdig, hhead, _, hval⟩ :=
        ih (v / 10) (digit_char (v % 10) :: acc) hdiv hfuel
      refine ⟨ds ++ [digit_char (v % 10)], ?_, by simp, ?_, ?_, ?_, ?_⟩
      · rw [dec_loop, if_neg hsmall, hrun, List.append_assoc]
        rfl
      · intro c hc
        rw [List.mem_append, List.mem_singleton] at hc
        rcases hc with hc | hc
        · exact hdig c hc
        · rw [hc]
          exact hd.1
      · intro h
        cases ds with
        | nil => exact absurd rfl hne
        | cons a rest =>
          exact absurd (hhead h) hsmall
      · intro h0
        rw [h0] at hsmall
        exact absurd rfl hsmall
      · rw [List.foldl_append, hval, List.foldl_cons, List.foldl_nil, hd.2.1]
        omega

/-- C9: for every `n < 2^64`, `print_expr (expr_int n)` emits the canonical decimal
numeral of `n`: a non-empty text of digits `0`-`9` only, with a leading `0` only when
`n = 0` (which prints as `0`), that reads back as `n`. -/
theorem print_expr_int (n : Nat) (hn : n < 2 ^ 64) :
    ∃ ds : List Char, print_expr (expr_int n) = Outcome.done (String.mk ds)
      ∧ ds ≠ []
      ∧ (∀ c ∈ ds, c.isDigit = true)
      ∧ (ds.head? = some '0' → n = 0)
      ∧ (n = 0 → ds = ['0'])
      ∧ (String.mk ds).toNat? = some n := by
  obtain ⟨ds, hrun, hne, hdig, hhead, hzero, hval⟩ :=
    dec_loop_spec 20 n [] (lt_trans hn (by decide)) (by decide)
  rw [List.append_nil] at hrun
  refine ⟨ds, ?_, hne, hdig, hhead, hzero, ?_⟩
  · rw [expr_int, expr_alloc, Expr.store, print_expr, fmt_u64, Nat.mod_mod, Nat.mod_eq_of_lt hn,
      hrun]
    rfl
  · have hall : (String.mk ds).all (fun c => c.isDigit) = true := by
      rw [String.all_eq, List.all_eq_true]
      exact hdig
    have hnonempty : (String.mk ds).isEmpty = false := by
      cases ds with
      | nil => exact absurd rfl hne
      | cons a rest =>
        have hpos := Char.utf8Size_pos a
        have hsize : (String.mk (a :: rest)).endPos ≠ 0 := by
          intro h
          have hb := congrArg String.Pos.byteIdx h
          simp [String.endPos, String.utf8ByteSize, String.utf8ByteSize.go] at hb
          omega
        simpa [String.isEmpty] using hsize
    rw [String.toNat?, String.isNat, hall, hnonempty, Bool.not_false, Bool.and_self, if_pos rfl,
      String.foldl_eq, hval]

/-- C9 at `Int(42)`: the text is `42`, and at `2^64 - 1` it is all twenty digits. -/
theorem print_expr_int_witness :
    (∃ ds : List Char, print_expr (expr_int 42) = Outcome.done (String.mk ds)
      ∧ ds ≠ []
      ∧ (∀ c ∈ ds, c.isDigit = true)
      ∧ (ds.head? = some '0' → 42 = 0)
      ∧ (42 = 0 → ds = ['0'])
      ∧ (String.mk ds).toNat? = some 42)
    ∧ print_expr (expr_int 42) = Outcome.done "42"
    ∧ print_expr (expr_int (2 ^ 64 - 1)) = Outcome.done "18446744073709551615" :=
  ⟨print_expr_int 42 (by decide), by decide, by decide⟩

/-! ## The self-test -/

/-- The seven lines `expr_test` prints. -/
theorem expr_test_prints :
    expr_test_exprs.map print_expr =
      [Outcome.done "(+ 1 2)", Outcome.done "(- 3.140000)",
       Outcome.done "(if flag \"true\" \"false\")", Outcome.done "(field person name)",
       Outcome.done "(fact 42)", Outcome.done "(index (field person siblings) 3)",
       Outcome.done "(cast (ptr int) void_ptr)"] := by
  decide

/-! ## Induction over trees -/

/-- A node a union points to is smaller than the node that holds the union. -/
theorem sizeOf_child_lt (n c : Node) (h : c ∈ n.children) : sizeOf c < sizeOf n := by
  cases n with
  | type t =>
    cases t with
    | mk kind u =>
      cases u with
      | zero => simp [Node.children, TypespecUnion.children] at h
      | name s => simp [Node.children, TypespecUnion.children] at h
      | ptr elem =>
        simp [Node.children, TypespecUnion.children] at h
        subst h
        simp
        omega
      | array elem size =>
        simp [Node.children, TypespecUnion.children] at h
        rcases h with h | h <;> subst h <;> simp <;> omega
      | func args num ret =>
        simp [Node.children, TypespecUnion.children] at h
        rcases h with ⟨a, ha, h⟩ | h
        · subst h
          have := List.sizeOf_lt_of_mem ha
          simp
          omega
        · subst h
          simp
          omega
  | expr e =>
    cases e with
    | mk kind u =>
      cases u <;> simp [Node.children, ExprUnion.children] at h
      case cast_expr type expr => rcases h with h | h <;> subst h <;> simp <;> omega
      case call_expr expr args num =>
        rcases h with h | ⟨a, ha, h⟩
        · subst h; simp; omega
        · subst h
          have := List.sizeOf_lt_of_mem ha
          simp
          omega
      case index_expr a b => rcases h with h | h <;> subst h <;> simp <;> omega
      case field_expr a b => subst h; simp; omega
      case unary_expr a b => subst h; simp; omega
      case binary_expr o a b => rcases h with h | h <;> subst h <;> simp <;> omega
      case ternary_expr a b c' => rcases h with h | h | h <;> subst h <;> simp <;> omega

/-- Induction over trees: a property that holds of a node whenever it holds of the nodes its
union points to holds of every node. -/
theorem node_induction (R : Node → Prop) (h : ∀ n, (∀ c ∈ n.children, R c) → R n) :
    ∀ n, R n := by
  intro n
  generalize hk : sizeOf n = k
  induction k using Nat.strong_induction_on generalizing n with
  | _ k ih =>
    apply h
    intro c hc
    exact ih (sizeOf c) (hk ▸ sizeOf_child_lt n c hc) c rfl

/-! ## Runs and their traversal -/

theorem seq_done_iff (a b : Outcome) (t : String) :
    a ++ b = Outcome.done t ↔ ∃ x y, a = Outcome.done x ∧ b = Outcome.done y ∧ t = x ++ y := by
  cases a <;> cases b <;> simp [HAppend.hAppend, Append.append, Outcome.seq]
  · constructor
    · intro h
      exact h.symm
    · intro h
      exact h.symm

theorem seq_fatal_iff (a b : Outcome) :
    (∃ t, a ++ b = Outcome.fatal t)
      ↔ (∃ t, a = Outcome.fatal t) ∨ (a.returned = true ∧ ∃ t, b = Outcome.fatal t) := by
  cases a <;> cases b <;> simp [HAppend.hAppend, Append.append, Outcome.seq, Outcome.returned]

theorem run_seq_outcome (a b : Run) : (a ++ b).outcome = a.outcome ++ b.outcome :=
  rfl

theorem run_seq_visited (a b : Run) :
    (a ++ b).visited = if a.outcome.returned then a.visited ++ b.visited else a.visited :=
  rfl

/-- The recorded loops end as the loops do, when the recorded calls on the elements
end as the calls do. -/
theorem visit_type_loop_outcome (args : List Typespec)
    (h : ∀ a ∈ args, (visit_type a).outcome = print_type a) :
    ∀ n, (visit_type_loop args n).outcome = print_type_loop args n := by
  induction args with
  | nil =>
    intro n
    cases n <;> rfl
  | cons a rest ih =>
    intro n
    cases n with
    | zero => rfl
    | succ n =>
      rw [visit_type_loop, print_type_loop, run_seq_outcome, run_seq_outcome,
        h a (List.mem_cons_self a rest),
        ih (fun b hb => h b (List.mem_cons_of_mem a hb)) n]
      rfl

theorem visit_expr_loop_outcome (args : List Expr)
    (h : ∀ a ∈ args, (visit_expr a).outcome = print_expr a) :
    ∀ n, (visit_expr_loop args n).outcome = print_expr_loop args n := by
  induction args with
  | nil =>
    intro n
    cases n <;> rfl
  | cons a rest ih =>
    intro n
    cases n with
    | zero => rfl
    | succ n =>
      rw [visit_expr_loop, print_expr_loop, run_seq_outcome, run_seq_outcome,
        h a (List.mem_cons_self a rest),
        ih (fun b hb => h b (List.mem_cons_of_mem a hb)) n]
      rfl

/-- Recording the calls changes nothing in how a printer runs. -/
theorem visit_node_outcome : ∀ n : Node, (visit_node n).outcome = print_node n := by
  apply node_induction
  intro n ih
  cases n with
  | type t =>
    cases t with
    | mk kind u =>
      cases kind <;> cases u <;>
        simp only [Node.children, TypespecUnion.children, List.mem_cons, List.mem_singleton,
          List.mem_append, List.mem_map, List.not_mem_nil, or_false, false_or,
          forall_eq_or_imp, forall_eq] at ih <;>
        simp only [visit_node, visit_type, print_node, print_type, Run.call, Run.stmt,
          run_seq_outcome]
      case TYPESPEC_FUNC.func args num ret =>
        have hret := ih (.type ret) (Or.inr rfl)
        have hargs := visit_type_loop_outcome args
          (fun a ha => ih (.type a) (Or.inl ⟨a, ha, rfl⟩)) num
        simp only [visit_node, print_node] at hret
        rw [hret, hargs]
      case TYPESPEC_ARRAY.array elem size =>
        have h1 := ih.1
        have h2 := ih.2
        simp only [visit_node, print_node] at h1 h2
        rw [h1, h2]
      case TYPESPEC_PTR.ptr elem =>
        simp only [visit_node, print_node] at ih
        rw [ih]
  | expr e =>
    cases e with
    | mk kind u =>
      cases kind <;> cases u <;>
        simp only [Node.children, ExprUnion.children, List.mem_cons, List.mem_singleton,
          List.mem_append, List.mem_map, List.not_mem_nil, or_false, false_or,
          forall_eq_or_imp, forall_eq] at ih <;>
        simp only [visit_node, visit_expr, print_node, print_expr, Run.call, Run.stmt,
          run_seq_outcome]
      case EXPR_CAST.cast_expr type expr =>
        have h1 := ih.1
        have h2 := ih.2
        simp only [visit_node, print_node] at h1 h2
        rw [h1, h2]
      case EXPR_CALL.call_expr expr args num =>
        have h1 := ih.1
        have hargs := visit_expr_loop_outcome args
          (fun a ha => ih.2 (.expr a) ⟨a, ha, rfl⟩) num
        simp only [visit_node, print_node] at h1
        rw [h1, hargs]
      case EXPR_INDEX.index_expr a b =>
        have h1 := ih.1
        have h2 := ih.2
        simp only [visit_node, print_node] at h1 h2
        rw [h1, h2]
      case EXPR_FIELD.field_expr a b =>
        simp only [visit_node, print_node] at ih
        rw [ih]
      case EXPR_UNARY.unary_expr o a =>
        simp only [visit_node, print_node] at ih
        rw [ih]
      case EXPR_BINARY.binary_expr o a b =>
        have h1 := ih.1
        have h2 := ih.2
        simp only [visit_node, print_node] at h1 h2
        rw [h1, h2]
      case EXPR_TERNARY.ternary_expr a b c =>
        have h1 := ih.1
        have h2 := ih.2.1
        have h3 := ih.2.2
        simp only [visit_node, print_node] at h1 h2 h3
        rw [h1, h2, h3]

theorem fatal_iff_unknown_printf (s : String) : (Run.stmt (printf s)).fatal_iff_unknown := by
  simp [Run.fatal_iff_unknown, Run.stmt, printf]

theorem fatal_iff_unknown_undefined : (Run.stmt Outcome.undefined).fatal_iff_unknown := by
  simp [Run.fatal_iff_unknown, Run.stmt]

theorem fatal_iff_unknown_seq (a b : Run) (ha : a.fatal_iff_unknown)
    (hb : b.fatal_iff_unknown) : (a ++ b).fatal_iff_unknown := by
  unfold Run.fatal_iff_unknown at *
  rw [run_seq_outcome, run_seq_visited, seq_fatal_iff, ha, hb]
  cases hr : a.outcome.returned
  · simp only [Bool.false_eq_true, false_and, or_false, if_false]
  · simp only [true_and, if_true, List.mem_append]
    constructor
    · rintro (⟨n, hn, hk⟩ | ⟨n, hn, hk⟩)
      · exact ⟨n, Or.inl hn, hk⟩
      · exact ⟨n, Or.inr hn, hk⟩
    · rintro ⟨n, hn | hn, hk⟩
      · exact Or.inl ⟨n, hn, hk⟩
      · exact Or.inr ⟨n, hn, hk⟩

theorem fatal_iff_unknown_call_known (n : Node) (body : Run) (hn : n.kind_unknown = false)
    (hb : body.fatal_iff_unknown) : (Run.call n body).fatal_iff_unknown := by
  unfold Run.fatal_iff_unknown at *
  simp only [Run.call, List.mem_cons, exists_eq_or_imp, hn, Bool.false_eq_true, false_or]
  exact hb

theorem fatal_iff_unknown_call_unknown (n : Node) (hn : n.kind_unknown = true) :
    (Run.call n (Run.stmt assert_0)).fatal_iff_unknown := by
  unfold Run.fatal_iff_unknown
  simp only [Run.call, Run.stmt, assert_0, List.mem_cons, exists_eq_or_imp, hn, true_or, iff_true]
  exact ⟨"", rfl⟩

theorem visit_type_loop_fatal (args : List Typespec)
    (h : ∀ a ∈ args, (visit_type a).fatal_iff_unknown) :
    ∀ n, (visit_type_loop args n).fatal_iff_unknown := by
  induction args with
  | nil =>
    intro n
    cases n
    · exact fatal_iff_unknown_printf ""
    · exact fatal_iff_unknown_undefined
  | cons a rest ih =>
    intro n
    cases n with
    | zero => exact fatal_iff_unknown_printf ""
    | succ n =>
      rw [visit_type_loop]
      exact fatal_iff_unknown_seq _ _
        (fatal_iff_unknown_seq _ _ (fatal_iff_unknown_printf " ") (h a (List.mem_cons_self a rest)))
        (ih (fun b hb => h b (List.mem_cons_of_mem a hb)) n)

theorem visit_expr_loop_fatal (args : List Expr)
    (h : ∀ a ∈ args, (visit_expr a).fatal_iff_unknown) :
    ∀ n, (visit_expr_loop args n).fatal_iff_unknown := by
  induction args with
  | nil =>
    intro n
    cases n
    · exact fatal_iff_unknown_printf ""
    · exact fatal_iff_unknown_undefined
  | cons a rest ih =>
    intro n
    cases n with
    | zero => exact fatal_iff_unknown_printf ""
    | succ n =>
      rw [visit_expr_loop]
      exact fatal_iff_unknown_seq _ _
        (fatal_iff_unknown_seq _ _ (fatal_iff_unknown_printf " ") (h a (List.mem_cons_self a rest)))
        (ih (fun b hb => h b (List.mem_cons_of_mem a hb)) n)

/-- A recorded run of a printer ends in `assert(0)` exactly when it called a printer on
a node whose kind tag is outside the known kinds. -/
theorem visit_node_fatal : ∀ n : Node, (visit_node n).fatal_iff_unknown := by
  apply node_induction
  intro n ih
  cases n with
  | type t =>
    cases t with
    | mk kind u =>
      cases kind <;> cases u <;>
        simp only [Node.children, TypespecUnion.children, List.mem_cons, List.mem_singleton,
          List.mem_append, List.mem_map, List.not_mem_nil, or_false, false_or,
          forall_eq_or_imp, forall_eq] at ih <;>
        simp only [visit_node, visit_type] <;>
        first
        | exact fatal_iff_unknown_call_unknown _ (by rfl)
        | (apply fatal_iff_unknown_call_known _ _ (by rfl)
           first
           | exact fatal_iff_unknown_printf _
           | exact fatal_iff_unknown_undefined
           | skip)
      case TYPESPEC_FUNC.func args num ret =>
        have hret := ih (.type ret) (Or.inr rfl)
        have hargs := visit_type_loop_fatal args
          (fun a ha => ih (.type a) (Or.inl ⟨a, ha, rfl⟩)) num
        exact fatal_iff_unknown_seq _ _ (fatal_iff_unknown_seq _ _ (fatal_iff_unknown_seq _ _
          (fatal_iff_unknown_seq _ _ (fatal_iff_unknown_printf _) hargs)
          (fatal_iff_unknown_printf _)) hret) (fatal_iff_unknown_printf _)
      case TYPESPEC_ARRAY.array elem size =>
        exact fatal_iff_unknown_seq _ _ (fatal_iff_unknown_seq _ _ (fatal_iff_unknown_seq _ _
          (fatal_iff_unknown_seq _ _ (fatal_iff_unknown_printf _) ih.1)
          (fatal_iff_unknown_printf _)) ih.2) (fatal_iff_unknown_printf _)
      case TYPESPEC_PTR.ptr elem =>
        exact fatal_iff_unknown_seq _ _
          (fatal_iff_unknown_seq _ _ (fatal_iff_unknown_printf _) ih) (fatal_iff_unknown_printf _)
  | expr e =>
    cases e with
    | mk kind u =>
      cases kind <;> cases u <;>
        simp only [Node.children, ExprUnion.children, List.mem_cons, List.mem_singleton,
          List.mem_append, List.mem_map, List.not_mem_nil, or_false, false_or,
          forall_eq_or_imp, forall_eq] at ih <;>
        simp only [visit_node, visit_expr] <;>
        first
        | exact fatal_iff_unknown_call_unknown _ (by rfl)
        | (apply fatal_iff_unknown_call_known _ _ (by rfl)
           first
           | exact fatal_iff_unknown_printf _
           | exact fatal_iff_unknown_undefined
           | skip)
      case EXPR_CAST.cast_expr type expr =>
        exact fatal_iff_unknown_seq _ _ (fatal_iff_unknown_seq _ _ (fatal_iff_unknown_seq _ _
          (fatal_iff_unknown_seq _ _ (fatal_iff_unknown_printf _) ih.1)
          (fatal_iff_unknown_printf _)) ih.2) (fatal_iff_unknown_printf _)
      case EXPR_CALL.call_expr expr args num =>
        have hargs := visit_expr_loop_fatal args
          (fun a ha => ih.2 (.expr a) ⟨a, ha, rfl⟩) num
        exact fatal_iff_unknown_seq _ _ (fatal_iff_unknown_seq _ _
          (fatal_iff_unknown_seq _ _ (fatal_iff_unknown_printf _) ih.1) hargs)
          (fatal_iff_unknown_printf _)
      case EXPR_INDEX.index_expr a b =>
        exact fatal_iff_unknown_seq _ _ (fatal_iff_unknown_seq _ _ (fatal_iff_unknown_seq _ _
          (fatal_iff_unknown_seq _ _ (fatal_iff_unknown_printf _) ih.1)
          (fatal_iff_unknown_printf _)) ih.2) (fatal_iff_unknown_printf _)
      case EXPR_FIELD.field_expr a b =>
        exact fatal_iff_unknown_seq _ _
          (fatal_iff_unknown_seq _ _ (fatal_iff_unknown_printf _) ih) (fatal_iff_unknown_printf _)
      case EXPR_UNARY.unary_expr o a =>
        exact fatal_iff_unknown_seq _ _
          (fatal_iff_unknown_seq _ _ (fatal_iff_unknown_printf _) ih) (fatal_iff_unknown_printf _)
      case EXPR_BINARY.binary_expr o a b =>
        exact fatal_iff_unknown_seq _ _ (fatal_iff_unknown_seq _ _ (fatal_iff_unknown_seq _ _
          (fatal_iff_unknown_seq _ _ (fatal_iff_unknown_printf _) ih.1)
          (fatal_iff_unknown_printf _)) ih.2) (fatal_iff_unknown_printf _)
      case EXPR_TERNARY.ternary_expr a b c =>
        exact fatal_iff_unknown_seq _ _ (fatal_iff_unknown_seq _ _ (fatal_iff_unknown_seq _ _
          (fatal_iff_unknown_seq _ _ (fatal_iff_unknown_seq _ _ (fatal_iff_unknown_seq _ _
          (fatal_iff_unknown_printf _) ih.1) (fatal_iff_unknown_printf _)) ih.2.1)
          (fatal_iff_unknown_printf _)) ih.2.2) (fatal_iff_unknown_printf _)

/-! ## The printers as changes of state -/

theorem append_eq_seq (a b : Outcome) : a ++ b = Outcome.seq a b :=
  rfl

theorem seq_assoc (a b c : Outcome) : a ++ b ++ c = a ++ (b ++ c) := by
  cases a <;> cases b <;> cases c <;>
    simp only [append_eq_seq, Outcome.seq, String.append_assoc]

theorem seq_printf_empty (a : Outcome) : a ++ printf "" = a := by
  cases a <;> simp only [append_eq_seq, Outcome.seq, printf, String.append_empty]

theorem print_type_loop_st_eq (args : List Typespec)
    (h : ∀ a ∈ args, ∀ σ, print_type_st a σ = (σ ++ print_type a, a)) :
    ∀ n σ, print_type_loop_st args n σ = (σ ++ print_type_loop args n, args) := by
  induction args with
  | nil =>
    intro n σ
    cases n
    · rw [print_type_loop_st, print_type_loop, seq_printf_empty]
    · rw [print_type_loop_st, print_type_loop]
  | cons a rest ih =>
    intro n σ
    cases n with
    | zero => rw [print_type_loop_st, print_type_loop, seq_printf_empty]
    | succ n =>
      simp only [print_type_loop_st, print_type_loop,
        ih (fun b hb => h b (List.mem_cons_of_mem a hb)) n, h a (List.mem_cons_self a rest),
        printf_on, seq_assoc]

theorem print_expr_loop_st_eq (args : List Expr)
    (h : ∀ a ∈ args, ∀ σ, print_expr_st a σ = (σ ++ print_expr a, a)) :
    ∀ n σ, print_expr_loop_st args n σ = (σ ++ print_expr_loop args n, args) := by
  induction args with
  | nil =>
    intro n σ
    cases n
    · rw [print_expr_loop_st, print_expr_loop, seq_printf_empty]
    · rw [print_expr_loop_st, print_expr_loop]
  | cons a rest ih =>
    intro n σ
    cases n with
    | zero => rw [print_expr_loop_st, print_expr_loop, seq_printf_empty]
    | succ n =>
      simp only [print_expr_loop_st, print_expr_loop,
        ih (fun b hb => h b (List.mem_cons_of_mem a hb)) n, h a (List.mem_cons_self a rest),
        printf_on, seq_assoc]

theorem print_type_st_of_node (t : Typespec)
    (h : ∀ σ, print_node_st (.type t) σ = (σ ++ print_node (.type t), .type t)) :
    ∀ σ, print_type_st t σ = (σ ++ print_type t, t) := by
  intro σ
  have hσ := h σ
  simp only [print_node_st, print_node, Prod.mk.injEq, Node.type.injEq] at hσ
  exact Prod.ext hσ.1 hσ.2

theorem print_expr_st_of_node (e : Expr)
    (h : ∀ σ, print_node_st (.expr e) σ = (σ ++ print_node (.expr e), .expr e)) :
    ∀ σ, print_expr_st e σ = (σ ++ print_expr e, e) := by
  intro σ
  have hσ := h σ
  simp only [print_node_st, print_node, Prod.mk.injEq, Node.expr.injEq] at hσ
  exact Prod.ext hσ.1 hσ.2

/-- A printer run on a process in state `σ` leaves the stream in the state `σ`
followed by what the printer does on its own, and leaves the tree under the node as it
was: it appends to the stream and stores nothing. -/
theorem print_node_st_eq :
    ∀ (n : Node) (σ : Outcome), print_node_st n σ = (σ ++ print_node n, n) := by
  apply node_induction
  intro n ih σ
  cases n with
  | type t =>
    cases t with
    | mk kind u =>
      have key : print_type_st (.mk kind u) σ = (σ ++ print_type (.mk kind u), .mk kind u) := by
        cases kind <;> cases u <;>
          simp only [print_type_st, print_type, printf_on, seq_assoc]
        case TYPESPEC_FUNC.func args num ret =>
          have hret := print_type_st_of_node ret
            (ih (.type ret) (by simp [Node.children, TypespecUnion.children]))
          have hargs := print_type_loop_st_eq args
            (fun a ha => print_type_st_of_node a (ih (.type a)
              (by simp only [Node.children, TypespecUnion.children, List.mem_append,
                    List.mem_map]
                  exact Or.inl ⟨a, ha, rfl⟩))) num
          simp only [hret, hargs, seq_assoc]
        case TYPESPEC_ARRAY.array elem size =>
          have h1 := print_type_st_of_node elem
            (ih (.type elem) (by simp [Node.children, TypespecUnion.children]))
          have h2 := print_expr_st_of_node size
            (ih (.expr size) (by simp [Node.children, TypespecUnion.children]))
          simp only [h1, h2, seq_assoc]
        case TYPESPEC_PTR.ptr elem =>
          have h1 := print_type_st_of_node elem
            (ih (.type elem) (by simp [Node.children, TypespecUnion.children]))
          simp only [h1, seq_assoc]
      simp only [print_node_st, print_node, key]
  | expr e =>
    cases e with
    | mk kind u =>
      have key : print_expr_st (.mk kind u) σ = (σ ++ print_expr (.mk kind u), .mk kind u) := by
        cases kind <;> cases u <;>
          simp only [print_expr_st, print_expr, printf_on, seq_assoc]
        case EXPR_CAST.cast_expr type expr =>
          have h1 := print_type_st_of_node type
            (ih (.type type) (by simp [Node.children, ExprUnion.children]))
          have h2 := print_expr_st_of_node expr
            (ih (.expr expr) (by simp [Node.children, ExprUnion.children]))
          simp only [h1, h2, seq_assoc]
        case EXPR_CALL.call_expr expr args num =>
          have h1 := print_expr_st_of_node expr
            (ih (.expr expr) (by simp [Node.children, ExprUnion.children]))
          have hargs := print_expr_loop_st_eq args
            (fun a ha => print_expr_st_of_node a (ih (.expr a)
              (by simp only [Node.children, ExprUnion.children, List.mem_cons, List.mem_map]
                  exact Or.inr ⟨a, ha, rfl⟩))) num
          simp only [h1, hargs, seq_assoc]
        case EXPR_INDEX.index_expr a b =>
          have h1 := print_expr_st_of_node a
            (ih (.expr a) (by simp [Node.children, ExprUnion.children]))
          have h2 := print_expr_st_of_node b
            (ih (.expr b) (by simp [Node.children, ExprUnion.children]))
          simp only [h1, h2, seq_assoc]
        case EXPR_FIELD.field_expr a b =>
          have h1 := print_expr_st_of_node a
            (ih (.expr a) (by simp [Node.children, ExprUnion.children]))
          simp only [h1, seq_assoc]
        case EXPR_UNARY.unary_expr o a =>
          have h1 := print_expr_st_of_node a
            (ih (.expr a) (by simp [Node.children, ExprUnion.children]))
          simp only [h1, seq_assoc]
        case EXPR_BINARY.binary_expr o a b =>
          have h1 := print_expr_st_of_node a
            (ih (.expr a) (by simp [Node.children, ExprUnion.children]))
          have h2 := print_expr_st_of_node b
            (ih (.expr b) (by simp [Node.children, ExprUnion.children]))
          simp only [h1, h2, seq_assoc]
        case EXPR_TERNARY.ternary_expr a b c =>
          have h1 := print_expr_st_of_node a
            (ih (.expr a) (by simp [Node.children, ExprUnion.children]))
          have h2 := print_expr_st_of_node b
            (ih (.expr b) (by simp [Node.children, ExprUnion.children]))
          have h3 := print_expr_st_of_node c
            (ih (.expr c) (by simp [Node.children, ExprUnion.children]))
          simp only [h1, h2, h3, seq_assoc]
      simp only [print_node_st, print_node, key]

/-! ## The fatal path (C11) -/

/-- A run that starts with a `printf` of a non-empty text does not end, in either way,
with no text written. -/
theorem seq_text_ne_empty (s : String) (o : Outcome) (hs : s ≠ "") :
    printf s ++ o ≠ Outcome.fatal "" := by
  have hlen : s.length ≠ 0 := by
    intro h
    apply hs
    apply String.ext
    exact List.length_eq_zero.mp h
  cases o with
  | done b => simp [append_eq_seq, Outcome.seq, printf]
  | fatal b =>
    simp only [append_eq_seq, Outcome.seq, printf, ne_eq, Outcome.fatal.injEq]
    intro h
    have := congrArg String.length h
    rw [String.length_append] at this
    exact hlen (by simpa using Nat.eq_zero_of_add_eq_zero_right this)
  | undefined => simp [append_eq_seq, Outcome.seq, printf]

/-- C11: a run of `print_expr` or `print_type` ends in the fatal path exactly when
the traversal meets a node whose kind tag is outside the known kinds (an expression
node for the `assert(0)` of `print_expr`, a typespec node for the one of
`print_type`); and a printer called on a node stops in `assert(0)` with no text
written for that node exactly when the kind tag of the node is outside the known
kinds, so for such a node it neither returns nor prints. -/
theorem fatal_path_iff_unknown_kind :
    (∀ e : Expr, (∃ t, print_expr e = Outcome.fatal t)
        ↔ ∃ n ∈ (visit_expr e).visited, n.kind_unknown = true)
      ∧ (∀ ty : Typespec, (∃ t, print_type ty = Outcome.fatal t)
        ↔ ∃ n ∈ (visit_type ty).visited, n.kind_unknown = true)
      ∧ (∀ (kind : ExprKind) (u : ExprUnion),
          print_expr (.mk kind u) = Outcome.fatal "" ↔ ∃ tag, kind = ExprKind.other tag)
      ∧ (∀ (kind : TypespecKind) (u : TypespecUnion),
          print_type (.mk kind u) = Outcome.fatal "" ↔ ∃ tag, kind = TypespecKind.other tag) := by
  refine ⟨?_, ?_, ?_, ?_⟩
  · intro e
    have h := visit_node_fatal (.expr e)
    have ho := visit_node_outcome (.expr e)
    simp only [visit_node, print_node] at h ho
    rw [← ho]
    exact h
  · intro ty
    have h := visit_node_fatal (.type ty)
    have ho := visit_node_outcome (.type ty)
    simp only [visit_node, print_node] at h ho
    rw [← ho]
    exact h
  · intro kind u
    constructor
    · intro h
      cases kind <;> cases u <;> simp only [print_expr, seq_assoc] at h <;>
        first
        | exact ⟨_, rfl⟩
        | (simp [printf, assert_0] at h; done)
        | (refine absurd h (seq_text_ne_empty _ _ ?_); decide)
        | skip
      all_goals
        refine absurd h (seq_text_ne_empty _ _ ?_)
        intro h0
        have hlen := congrArg String.length h0
        rw [String.length_append, String.length_append] at hlen
        have h1 : "(".length = 1 := rfl
        have h2 : "".length = 0 := rfl
        omega
    · rintro ⟨tag, rfl⟩
      rfl
  · intro kind u
    constructor
    · intro h
      cases kind <;> cases u <;> simp only [print_type, seq_assoc] at h <;>
        first
        | exact ⟨_, rfl⟩
        | (simp [printf, assert_0] at h; done)
        | (refine absurd h (seq_text_ne_empty _ _ ?_); decide)
    · rintro ⟨tag, rfl⟩
      rfl

/-! ## Printing twice (C14) -/

/-- C14: for a node (expression or typespec) whose text is `t`, and whatever text `s`
is on the stream before, a call of the printer leaves `s ++ t` on the stream and the
tree under the node as it was, kind and every field of every node; a second call, on
the tree and the stream as the first left them, leaves `s ++ t ++ t` and again the same
tree.  The text `t` is the one the printer gives for the tree alone, whatever `s` is;
and in every state of the process the call leaves the tree, and so the list of its
nodes, as it was. -/
theorem print_twice_same_text_same_tree (n : Node) (s t : String)
    (h : print_node n = Outcome.done t) :
    print_node_st n (Outcome.done s) = (Outcome.done (s ++ t), n)
      ∧ print_node_st (print_node_st n (Outcome.done s)).2 (print_node_st n (Outcome.done s)).1
        = (Outcome.done (s ++ t ++ t), n)
      ∧ ∀ σ : Outcome, (print_node_st n σ).2 = n ∧ (print_node_st n σ).2.nodes = n.nodes := by
  have h1 : print_node_st n (Outcome.done s) = (Outcome.done (s ++ t), n) := by
    rw [print_node_st_eq, h, done_append_done]
  refine ⟨h1, ?_, ?_⟩
  · rw [h1, print_node_st_eq, h, done_append_done]
  · intro σ
    rw [print_node_st_eq]
    exact ⟨rfl, rfl⟩

/-- C14 at `Binary('+', Int(1), Int(2))` printed after `x`: the stream holds
`x(+ 1 2)` after one call and `x(+ 1 2)(+ 1 2)` after two, and the tree is the same
after each. -/
theorem print_twice_same_text_same_tree_witness :
    print_node_st (.expr (expr_binary 43 (expr_int 1) (expr_int 2))) (Outcome.done "x")
        = (Outcome.done ("x" ++ "(+ 1 2)"), .expr (expr_binary 43 (expr_int 1) (expr_int 2)))
      ∧ print_node_st
          (print_node_st (.expr (expr_binary 43 (expr_int 1) (expr_int 2)))
            (Outcome.done "x")).2
          (print_node_st (.expr (expr_binary 43 (expr_int 1) (expr_int 2)))
            (Outcome.done "x")).1
        = (Outcome.done ("x" ++ "(+ 1 2)" ++ "(+ 1 2)"),
            .expr (expr_binary 43 (expr_int 1) (expr_int 2))) :=
  have h := print_twice_same_text_same_tree
    (.expr (expr_binary 43 (expr_int 1) (expr_int 2))) "x" "(+ 1 2)" (by decide)
  ⟨h.1, h.2.1⟩

/-! ## Compound (C15) -/

/-- C15: for a node with kind Compound, whatever its union holds, `print_expr` emits
`(compound ...)` and calls no printer on any other node. -/
theorem print_expr_compound (u : ExprUnion) :
    print_expr (.mk .EXPR_COMPOUND u) = Outcome.done "(compound ...)"
      ∧ (visit_expr (.mk .EXPR_COMPOUND u)).visited = [Node.expr (.mk .EXPR_COMPOUND u)] :=
  ⟨rfl, rfl⟩

/-! ## The factory (C12) -/

/-- No constructor of the factory returns a node of kind Compound. -/
theorem ctor_kind_ne_compound (c : ExprCtor) : c.result.kind ≠ ExprKind.EXPR_COMPOUND := by
  cases c <;> simp [ExprCtor.result, expr_int, expr_float, expr_str, expr_name, expr_cast,
    expr_call, expr_index, expr_field, expr_unary, expr_binary, expr_ternary, expr_alloc,
    Expr.store, Expr.kind]

/-- C12 as stated fails at the kind Compound: `ast.c` defines no constructor whose
result carries the tag `EXPR_COMPOUND`. -/
theorem no_compound_ctor : ¬ ∃ c : ExprCtor, c.result.kind = ExprKind.EXPR_COMPOUND := by
  rintro ⟨c, hc⟩
  exact ctor_kind_ne_compound c hc

/-- C12, amended: each of the four typespec constructors and of the eleven expression
constructors returns a node that carries the kind tag of its variant and whose union
holds the arguments of the call; the kinds some constructor returns are the four
typespec kinds and the expression kinds other than Compound, for which there is no
constructor. -/
theorem factory_kinds_and_payloads :
    (∀ name, (typespec_name name).kind = .TYPESPEC_NAME ∧ (typespec_name name).u = .name name)
      ∧ (∀ elem, (typespec_ptr elem).kind = .TYPESPEC_PTR ∧ (typespec_ptr elem).u = .ptr elem)
      ∧ (∀ elem size, (typespec_array elem size).kind = .TYPESPEC_ARRAY
          ∧ (typespec_array elem size).u = .array elem size)
      ∧ (∀ args num_args ret, (typespec_func args num_args ret).kind = .TYPESPEC_FUNC
          ∧ (typespec_func args num_args ret).u = .func args num_args ret)
      ∧ (∀ v, v < 2 ^ 64 → (expr_int v).kind = .EXPR_INT ∧ (expr_int v).u = .int_val v)
      ∧ (∀ v, v < 2 ^ 64 → (expr_float v).kind = .EXPR_FLOAT ∧ (expr_float v).u = .float_val v)
      ∧ (∀ s, (expr_str s).kind = .EXPR_STR ∧ (expr_str s).u = .str_val s)
      ∧ (∀ name, (expr_name name).kind = .EXPR_NAME ∧ (expr_name name).u = .name name)
      ∧ (∀ type expr, (expr_cast type expr).kind = .EXPR_CAST
          ∧ (expr_cast type expr).u = .cast_expr type expr)
      ∧ (∀ expr args num_args, (expr_call expr args num_args).kind = .EXPR_CALL
          ∧ (expr_call expr args num_args).u = .call_expr expr args num_args)
      ∧ (∀ expr index, (expr_index expr index).kind = .EXPR_INDEX
          ∧ (expr_index expr index).u = .index_expr expr index)
      ∧ (∀ expr name, (expr_field expr name).kind = .EXPR_FIELD
          ∧ (expr_field expr name).u = .field_expr expr name)
      ∧ (∀ op expr, (expr_unary op expr).kind = .EXPR_UNARY
          ∧ (expr_unary op expr).u = .unary_expr op expr)
      ∧ (∀ op left right, (expr_binary op left right).kind = .EXPR_BINARY
          ∧ (expr_binary op left right).u = .binary_expr op left right)
      ∧ (∀ cond if_true if_false, (expr_ternary cond if_true if_false).kind = .EXPR_TERNARY
          ∧ (expr_ternary cond if_true if_false).u = .ternary_expr cond if_true if_false)
      ∧ (∀ k : TypespecKind, (∃ c : TypespecCtor, c.result.kind = k) ↔ ∀ tag, k ≠ .other tag)
      ∧ (∀ k : ExprKind, (∃ c : ExprCtor, c.result.kind = k)
          ↔ k ≠ .EXPR_COMPOUND ∧ ∀ tag, k ≠ .other tag) := by
  refine ⟨fun _ => ⟨rfl, rfl⟩, fun _ => ⟨rfl, rfl⟩, fun _ _ => ⟨rfl, rfl⟩,
    fun _ _ _ => ⟨rfl, rfl⟩, ?_, ?_, fun _ => ⟨rfl, rfl⟩, fun _ => ⟨rfl, rfl⟩,
    fun _ _ => ⟨rfl, rfl⟩, fun _ _ _ => ⟨rfl, rfl⟩, fun _ _ => ⟨rfl, rfl⟩,
    fun _ _ => ⟨rfl, rfl⟩, fun _ _ => ⟨rfl, rfl⟩, fun _ _ _ => ⟨rfl, rfl⟩,
    fun _ _ _ => ⟨rfl, rfl⟩, ?_, ?_⟩
  · intro v hv
    refine ⟨rfl, ?_⟩
    rw [expr_int, expr_alloc, Expr.store, Expr.u, Nat.mod_eq_of_lt hv]
  · intro v hv
    refine ⟨rfl, ?_⟩
    rw [expr_float, expr_alloc, Expr.store, Expr.u, Nat.mod_eq_of_lt hv]
  · intro k
    constructor
    · rintro ⟨c, rfl⟩ tag
      cases c <;> simp [TypespecCtor.result, typespec_name, typespec_ptr, typespec_array,
        typespec_func, typespec_alloc, Typespec.store, Typespec.kind]
    · intro hk
      cases k with
      | TYPESPEC_NAME => exact ⟨.typespec_name "", rfl⟩
      | TYPESPEC_FUNC => exact ⟨.typespec_func [] 0 (typespec_name ""), rfl⟩
      | TYPESPEC_ARRAY => exact ⟨.typespec_array (typespec_name "") (expr_int 0), rfl⟩
      | TYPESPEC_PTR => exact ⟨.typespec_ptr (typespec_name ""), rfl⟩
      | other tag => exact absurd rfl (hk tag)
  · intro k
    constructor
    · rintro ⟨c, rfl⟩
      refine ⟨ctor_kind_ne_compound c, ?_⟩
      intro tag
      cases c <;> simp [ExprCtor.result, expr_int, expr_float, expr_str, expr_name, expr_cast,
        expr_call, expr_index, expr_field, expr_unary, expr_binary, expr_ternary, expr_alloc,
        Expr.store, Expr.kind]
    · rintro ⟨hc, hk⟩
      cases k with
      | EXPR_INT => exact ⟨.expr_int 0, rfl⟩
      | EXPR_FLOAT => exact ⟨.expr_float 0, rfl⟩
      | EXPR_STR => exact ⟨.expr_str "", rfl⟩
      | EXPR_NAME => exact ⟨.expr_name "", rfl⟩
      | EXPR_CAST => exact ⟨.expr_cast (typespec_name "") (expr_int 0), rfl⟩
      | EXPR_CALL => exact ⟨.expr_call (expr_int 0) [] 0, rfl⟩
      | EXPR_INDEX => exact ⟨.expr_index (expr_int 0) (expr_int 0), rfl⟩
      | EXPR_FIELD => exact ⟨.expr_field (expr_int 0) "", rfl⟩
      | EXPR_COMPOUND => exact absurd rfl hc
      | EXPR_UNARY => exact ⟨.expr_unary 0 (expr_int 0), rfl⟩
      | EXPR_BINARY => exact ⟨.expr_binary 0 (expr_int 0) (expr_int 0), rfl⟩
      | EXPR_TERNARY => exact ⟨.expr_ternary (expr_int 0) (expr_int 0) (expr_int 0), rfl⟩
      | other tag => exact absurd rfl (hk tag)

/-- C12, amended, at `expr_int(42)` and `expr_float(3.14)`: the nodes carry the tags
`EXPR_INT` and `EXPR_FLOAT` and hold the values passed. -/
theorem factory_kinds_and_payloads_witness :
    ((expr_int 42).kind = .EXPR_INT ∧ (expr_int 42).u = .int_val 42)
      ∧ ((expr_float 0x40091EB851EB851F).kind = .EXPR_FLOAT
        ∧ (expr_float 0x40091EB851EB851F).u = .float_val 0x40091EB851EB851F) :=
  ⟨factory_kinds_and_payloads.2.2.2.2.1 42 (by decide),
    factory_kinds_and_payloads.2.2.2.2.2.1 0x40091EB851EB851F (by decide)⟩

/-! ## The printer is not injective (C19) -/

/-- C19: `expr_field(expr_name("a"), "b")` and
`expr_call(expr_name("field"), [expr_name("a"), expr_name("b")], 2)` are different
trees that both print as `(field a b)`, and `expr_int(1)` and `expr_name("1")` are
different trees that both print as `1`; all four are built by the constructors of the
factory, and so `print_expr` is not injective. -/
theorem print_expr_not_injective :
    (expr_field (expr_name "a") "b"
        ≠ expr_call (expr_name "field") [expr_name "a", expr_name "b"] 2
      ∧ print_expr (expr_field (expr_name "a") "b") = Outcome.done "(field a b)"
      ∧ print_expr (expr_call (expr_name "field") [expr_name "a", expr_name "b"] 2)
          = Outcome.done "(field a b)"
      ∧ Built (.expr (expr_field (expr_name "a") "b"))
      ∧ Built (.expr (expr_call (expr_name "field") [expr_name "a", expr_name "b"] 2)))
    ∧ (expr_int 1 ≠ expr_name "1"
      ∧ print_expr (expr_int 1) = Outcome.done "1"
      ∧ print_expr (expr_name "1") = Outcome.done "1"
      ∧ Built (.expr (expr_int 1)) ∧ Built (.expr (expr_name "1")))
    ∧ ¬ Function.Injective print_expr := by
  have hne : expr_int 1 ≠ expr_name "1" := by
    simp [expr_int, expr_name, expr_alloc, Expr.store]
  refine ⟨⟨?_, by decide, by decide, ?_, ?_⟩, ⟨hne, by decide, by decide, ?_, ?_⟩, ?_⟩
  · simp [expr_field, expr_call, expr_alloc, Expr.store]
  · exact Built.expr_field _ _ (Built.expr_name _)
  · refine Built.expr_call (expr_name "field") [expr_name "a", expr_name "b"]
      (Built.expr_name _) ?_
    intro a ha
    simp only [List.mem_cons, List.mem_singleton, List.not_mem_nil, or_false] at ha
    rcases ha with rfl | rfl <;> exact Built.expr_name _
  · exact Built.expr_int 1
  · exact Built.expr_name "1"
  · intro hinj
    exact hne (hinj (by decide))

/-! ## Operator codes (C20) -/

/-- The character made from a code below 256 has that code. -/
theorem toNat_ofNat_of_lt (n : Nat) (h : n < 256) : (Char.ofNat n).toNat = n := by
  have hv : n.isValidChar := Or.inl (by omega)
  simp only [Char.ofNat, hv, dite_true, Char.toNat, Char.ofNatAux]
  rfl

theorem fmt_c_add_mul (k j : Int) : fmt_c (k + 256 * j) = fmt_c k := by
  rw [fmt_c, fmt_c, Int.add_mul_emod_self_left]

/-- C20: for every operator code `k` (any integer) in a Unary or Binary node whose
operands print, the operator is printed as the one character whose code is `k` reduced
modulo 256, a code below 256; and a code that differs from `k` by a multiple of 256
prints the same. -/
theorem print_expr_operator_mod_256 (k : Int) (e l r : Expr) (te tl tr : String)
    (he : print_expr e = Outcome.done te) (hl : print_expr l = Outcome.done tl)
    (hr : print_expr r = Outcome.done tr) :
    print_expr (expr_unary k e)
        = Outcome.done ("(" ++ String.singleton (Char.ofNat (k % 256).toNat) ++ " " ++ te ++ ")")
      ∧ print_expr (expr_binary k l r)
        = Outcome.done ("(" ++ String.singleton (Char.ofNat (k % 256).toNat) ++ " " ++ tl
            ++ " " ++ tr ++ ")")
      ∧ (String.singleton (Char.ofNat (k % 256).toNat)).length = 1
      ∧ (Char.ofNat (k % 256).toNat).toNat = (k % 256).toNat
      ∧ (k % 256).toNat < 256
      ∧ ∀ j : Int, print_expr (expr_unary (k + 256 * j) e) = print_expr (expr_unary k e)
          ∧ print_expr (expr_binary (k + 256 * j) l r) = print_expr (expr_binary k l r) := by
  have hlt : (k % 256).toNat < 256 := by omega
  refine ⟨?_, ?_, rfl, toNat_ofNat_of_lt _ hlt, hlt, ?_⟩
  · rw [expr_unary, expr_alloc, Expr.store, print_expr, he, fmt_c]
    rfl
  · rw [expr_binary, expr_alloc, Expr.store, print_expr, hl, hr, fmt_c]
    rfl
  · intro j
    constructor
    · rw [expr_unary, expr_alloc, Expr.store, print_expr, fmt_c_add_mul, expr_unary, expr_alloc,
        Expr.store, print_expr]
    · rw [expr_binary, expr_alloc, Expr.store, print_expr, fmt_c_add_mul, expr_binary,
        expr_alloc, Expr.store, print_expr]

/-- C20 at the operator code 299 = 43 + 256: `Unary(299, Int(1))` prints as `(+ 1)` and
`Binary(299, Int(1), Int(2))` as `(+ 1 2)`. -/
theorem print_expr_operator_mod_256_witness :
    print_expr (expr_unary 299 (expr_int 1)) = Outcome.done "(+ 1)"
      ∧ print_expr (expr_binary 299 (expr_int 1) (expr_int 2)) = Outcome.done "(+ 1 2)" :=
  have h := print_expr_operator_mod_256 299 (expr_int 1) (expr_int 1) (expr_int 2) "1" "1" "2"
    (by decide) (by decide) (by decide)
  ⟨h.1, h.2.1⟩

/-! ## Trees built by the factory (C17) -/

theorem mem_nodes_type_list (m : Node) (args : List Typespec) :
    m ∈ nodes_type_list args ↔ ∃ a ∈ args, m ∈ nodes_type a := by
  induction args with
  | nil => simp [nodes_type_list]
  | cons a rest ih => simp [nodes_type_list, ih]

theorem mem_nodes_expr_list (m : Node) (args : List Expr) :
    m ∈ nodes_expr_list args ↔ ∃ a ∈ args, m ∈ nodes_expr a := by
  induction args with
  | nil => simp [nodes_expr_list]
  | cons a rest ih => simp [nodes_expr_list, ih]

/-- The argument loop of `print_type` returns when run over a whole array whose
elements all print. -/
theorem print_type_loop_returns (args : List Typespec)
    (h : ∀ a ∈ args, ∃ t, print_type a = Outcome.done t) :
    ∃ t, print_type_loop args args.length = Outcome.done t := by
  induction args with
  | nil => exact ⟨"", rfl⟩
  | cons a rest ih =>
    obtain ⟨ta, hta⟩ := h a (List.mem_cons_self a rest)
    obtain ⟨tr, htr⟩ := ih (fun b hb => h b (List.mem_cons_of_mem a hb))
    exact ⟨" " ++ ta ++ tr, by rw [List.length_cons, print_type_loop, hta, htr]; rfl⟩

/-- The argument loop of `print_expr` returns when run over a whole array whose
elements all print. -/
theorem print_expr_loop_returns (args : List Expr)
    (h : ∀ a ∈ args, ∃ t, print_expr a = Outcome.done t) :
    ∃ t, print_expr_loop args args.length = Outcome.done t := by
  induction args with
  | nil => exact ⟨"", rfl⟩
  | cons a rest ih =>
    obtain ⟨ta, hta⟩ := h a (List.mem_cons_self a rest)
    obtain ⟨tr, htr⟩ := ih (fun b hb => h b (List.mem_cons_of_mem a hb))
    exact ⟨" " ++ ta ++ tr, by rw [List.length_cons, print_expr_loop, hta, htr]; rfl⟩

/-- In a tree built by the factory every kind tag is a known kind other than Compound,
and the printer returns. -/
theorem built_kinds_and_returns (n : Node) (h : Built n) :
    (∀ m ∈ n.nodes, m.kind_of_factory = true) ∧ ∃ t, print_node n = Outcome.done t := by
  induction h with
  | typespec_name name => exact ⟨by simp [Node.nodes, typespec_name, typespec_alloc,
      Typespec.store, nodes_type, Node.kind_of_factory], ⟨_, rfl⟩⟩
  | typespec_ptr elem _ ih =>
    obtain ⟨hk, t, ht⟩ := ih
    refine ⟨?_, "(ptr " ++ t ++ ")", ?_⟩
    · intro m hm
      simp only [Node.nodes, typespec_ptr, typespec_alloc, Typespec.store, nodes_type,
        List.mem_cons] at hm
      rcases hm with rfl | hm
      · rfl
      · exact hk m hm
    · simp only [print_node] at ht ⊢
      rw [typespec_ptr, typespec_alloc, Typespec.store, print_type, ht]
      rfl
  | typespec_array elem size _ _ ih1 ih2 =>
    obtain ⟨hk1, t1, ht1⟩ := ih1
    obtain ⟨hk2, t2, ht2⟩ := ih2
    refine ⟨?_, "(arr " ++ t1 ++ " " ++ t2 ++ ")", ?_⟩
    · intro m hm
      simp only [Node.nodes, typespec_array, typespec_alloc, Typespec.store, nodes_type,
        List.mem_cons, List.mem_append] at hm
      rcases hm with rfl | hm | hm
      · rfl
      · exact hk1 m hm
      · exact hk2 m hm
    · simp only [print_node] at ht1 ht2 ⊢
      rw [typespec_array, typespec_alloc, Typespec.store, print_type, ht1, ht2]
      rfl
  | typespec_func args ret _ _ ihargs ihret =>
    obtain ⟨hk, tr, htr⟩ := ihret
    obtain ⟨tl, htl⟩ := print_type_loop_returns args (fun a ha => (ihargs a ha).2)
    refine ⟨?_, "(func (" ++ tl ++ ") " ++ tr ++ ")", ?_⟩
    · intro m hm
      simp only [Node.nodes, typespec_func, typespec_alloc, Typespec.store, nodes_type,
        List.mem_cons, List.mem_append, mem_nodes_type_list] at hm
      rcases hm with rfl | ⟨a, ha, hm⟩ | hm
      · rfl
      · exact (ihargs a ha).1 m hm
      · exact hk m hm
    · simp only [print_node] at htr ⊢
      rw [typespec_func, typespec_alloc, Typespec.store, print_type, htl, htr]
      rfl
  | expr_int v => exact ⟨by simp [Node.nodes, expr_int, expr_alloc, Expr.store, nodes_expr,
      Node.kind_of_factory], ⟨_, rfl⟩⟩
  | expr_float v => exact ⟨by simp [Node.nodes, expr_float, expr_alloc, Expr.store, nodes_expr,
      Node.kind_of_factory], ⟨_, rfl⟩⟩
  | expr_str s => exact ⟨by simp [Node.nodes, expr_str, expr_alloc, Expr.store, nodes_expr,
      Node.kind_of_factory], ⟨_, rfl⟩⟩
  | expr_name s => exact ⟨by simp [Node.nodes, expr_name, expr_alloc, Expr.store, nodes_expr,
      Node.kind_of_factory], ⟨_, rfl⟩⟩
  | expr_cast type expr _ _ ih1 ih2 =>
    obtain ⟨hk1, t1, ht1⟩ := ih1
    obtain ⟨hk2, t2, ht2⟩ := ih2
    refine ⟨?_, "(cast " ++ t1 ++ " " ++ t2 ++ ")", ?_⟩
    · intro m hm
      simp only [Node.nodes, expr_cast, expr_alloc, Expr.store, nodes_expr,
        List.mem_cons, List.mem_append] at hm
      rcases hm with rfl | hm | hm
      · rfl
      · exact hk1 m hm
      · exact hk2 m hm
    · simp only [print_node] at ht1 ht2 ⊢
      rw [expr_cast, expr_alloc, Expr.store, print_expr, ht1, ht2]
      rfl
  | expr_call expr args _ _ ih ihargs =>
    obtain ⟨hk, tf, htf⟩ := ih
    obtain ⟨tl, htl⟩ := print_expr_loop_returns args (fun a ha => (ihargs a ha).2)
    refine ⟨?_, "(" ++ tf ++ tl ++ ")", ?_⟩
    · intro m hm
      simp only [Node.nodes, expr_call, expr_alloc, Expr.store, nodes_expr,
        List.mem_cons, List.mem_append, mem_nodes_expr_list] at hm
      rcases hm with rfl | hm | ⟨a, ha, hm⟩
      · rfl
      · exact hk m hm
      · exact (ihargs a ha).1 m hm
    · simp only [print_node] at htf ⊢
      rw [expr_call, expr_alloc, Expr.store, print_expr, htf, htl]
      rfl
  | expr_index expr index _ _ ih1 ih2 =>
    obtain ⟨hk1, t1, ht1⟩ := ih1
    obtain ⟨hk2, t2, ht2⟩ := ih2
    refine ⟨?_, "(index " ++ t1 ++ " " ++ t2 ++ ")", ?_⟩
    · intro m hm
      simp only [Node.nodes, expr_index, expr_alloc, Expr.store, nodes_expr,
        List.mem_cons, List.mem_append] at hm
      rcases hm with rfl | hm | hm
      · rfl
      · exact hk1 m hm
      · exact hk2 m hm
    · simp only [print_node] at ht1 ht2 ⊢
      rw [expr_index, expr_alloc, Expr.store, print_expr, ht1, ht2]
      rfl
  | expr_field expr name _ ih =>
    obtain ⟨hk, t, ht⟩ := ih
    refine ⟨?_, "(field " ++ t ++ (" " ++ fmt_s name ++ ")"), ?_⟩
    · intro m hm
      simp only [Node.nodes, expr_field, expr_alloc, Expr.store, nodes_expr,
        List.mem_cons] at hm
      rcases hm with rfl | hm
      · rfl
      · exact hk m hm
    · simp only [print_node] at ht ⊢
      rw [expr_field, expr_alloc, Expr.store, print_expr, ht]
      rfl
  | expr_unary op expr _ ih =>
    obtain ⟨hk, t, ht⟩ := ih
    refine ⟨?_, "(" ++ fmt_c op ++ " " ++ t ++ ")", ?_⟩
    · intro m hm
      simp only [Node.nodes, expr_unary, expr_alloc, Expr.store, nodes_expr,
        List.mem_cons] at hm
      rcases hm with rfl | hm
      · rfl
      · exact hk m hm
    · simp only [print_node] at ht ⊢
      rw [expr_unary, expr_alloc, Expr.store, print_expr, ht]
      rfl
  | expr_binary op left right _ _ ih1 ih2 =>
    obtain ⟨hk1, t1, ht1⟩ := ih1
    obtain ⟨hk2, t2, ht2⟩ := ih2
    refine ⟨?_, "(" ++ fmt_c op ++ " " ++ t1 ++ " " ++ t2 ++ ")", ?_⟩
    · intro m hm
      simp only [Node.nodes, expr_binary, expr_alloc, Expr.store, nodes_expr,
        List.mem_cons, List.mem_append] at hm
      rcases hm with rfl | hm | hm
      · rfl
      · exact hk1 m hm
      · exact hk2 m hm
    · simp only [print_node] at ht1 ht2 ⊢
      rw [expr_binary, expr_alloc, Expr.store, print_expr, ht1, ht2]
      rfl
  | expr_ternary c a b _ _ _ ih1 ih2 ih3 =>
    obtain ⟨hk1, t1, ht1⟩ := ih1
    obtain ⟨hk2, t2, ht2⟩ := ih2
    obtain ⟨hk3, t3, ht3⟩ := ih3
    refine ⟨?_, "(if " ++ t1 ++ " " ++ t2 ++ " " ++ t3 ++ ")", ?_⟩
    · intro m hm
      simp only [Node.nodes, expr_ternary, expr_alloc, Expr.store, nodes_expr,
        List.mem_cons, List.mem_append] at hm
      rcases hm with rfl | (hm | hm) | hm
      · rfl
      · exact hk1 m hm
      · exact hk2 m hm
      · exact hk3 m hm
    · simp only [print_node] at ht1 ht2 ht3 ⊢
      rw [expr_ternary, expr_alloc, Expr.store, print_expr, ht1, ht2, ht3]
      rfl

/-- C17: in a tree built only by the constructors of the factory, with argument counts
equal to the lengths of the argument arrays, every node has a kind tag that is a known
kind other than Compound, the printer returns with a text, and no printer is called on
a node with an unknown kind tag, so `assert(0)` is not reached. -/
theorem built_prints (n : Node) (h : Built n) :
    (∀ m ∈ n.nodes, m.kind_of_factory = true)
      ∧ (∃ t, print_node n = Outcome.done t)
      ∧ (∀ t, print_node n ≠ Outcome.fatal t)
      ∧ (∀ m ∈ (visit_node n).visited, m.kind_unknown = false) := by
  obtain ⟨hk, t, ht⟩ := built_kinds_and_returns n h
  have hnf : ¬ ∃ s, (visit_node n).outcome = Outcome.fatal s := by
    rw [visit_node_outcome, ht]
    rintro ⟨s, hs⟩
    cases hs
  refine ⟨hk, ⟨t, ht⟩, ?_, ?_⟩
  · intro s hs
    rw [ht] at hs
    cases hs
  · intro m hm
    cases hu : m.kind_unknown with
    | false => rfl
    | true => exact absurd ((visit_node_fatal n).mpr ⟨m, hm, hu⟩) hnf

/-- C17 at `expr_call(expr_name("fact"), [expr_int(42)], 1)`, a tree built by the
factory. -/
theorem built_prints_witness :
    Built (.expr (expr_call (expr_name "fact") [expr_int 42] 1))
      ∧ (∀ m ∈ (Node.expr (expr_call (expr_name "fact") [expr_int 42] 1)).nodes,
          m.kind_of_factory = true)
      ∧ (∃ t, print_node (.expr (expr_call (expr_name "fact") [expr_int 42] 1))
          = Outcome.done t) :=
  have hb : Built (.expr (expr_call (expr_name "fact") [expr_int 42] 1)) :=
    Built.expr_call (expr_name "fact") [expr_int 42] (Built.expr_name "fact")
      (fun a ha => by
        rw [List.mem_singleton] at ha
        rw [ha]
        exact Built.expr_int 42)
  have h := built_prints _ hb
  ⟨hb, h.1, h.2.1⟩

/-! ## Floating-point literal (C16) -/

/-- The last `width` digits that `pad_loop` puts in front of the accumulator: exactly
`width` digit characters, whose value is `v` modulo `10 ^ width`. -/
theorem pad_loop_spec (width : Nat) : ∀ (v : Nat) (acc : List Char),
    ∃ ds : List Char, pad_loop width v acc = ds ++ acc ∧ ds.length = width
      ∧ (∀ c ∈ ds, c.isDigit = true)
      ∧ ds.foldl (fun n c => n * 10 + (c.toNat - '0'.toNat)) 0 = v % 10 ^ width := by
  induction width with
  | zero =>
    intro v acc
    exact ⟨[], rfl, rfl, by simp, by simp [Nat.mod_one]⟩
  | succ width ih =>
    intro v acc
    have hd := digit_char_spec (v % 10) (Nat.mod_lt v (by decide))
    obtain ⟨ds, hrun, hlen, hdig, hval⟩ := ih (v / 10) (digit_char (v % 10) :: acc)
    refine ⟨ds ++ [digit_char (v % 10)], ?_, ?_, ?_, ?_⟩
    · rw [pad_loop, hrun, List.append_assoc]
      rfl
    · rw [List.length_append, hlen]
      rfl
    · intro c hc
      rw [List.mem_append, List.mem_singleton] at hc
      rcases hc with hc | hc
      · exact hdig c hc
      · rw [hc]
        exact hd.1
    · rw [List.foldl_append, hval, List.foldl_cons, List.foldl_nil, hd.2.1, pow_succ,
        Nat.mul_comm (10 ^ width) 10, Nat.mod_mul]
      omega

theorem round_half_even_le (num den : Nat) : round_half_even num den ≤ num / den + 1 := by
  unfold round_half_even
  simp only
  split_ifs <;> omega

/-- The integer part of a finite `double` in millionths has at most 310 digits. -/
theorem millionths_lt (bits : Nat) : millionths bits / 10 ^ 6 < 10 ^ 310 := by
  have hm : ∀ e frac : Nat, frac < 2 ^ 52 → (if e = 0 then frac else 2 ^ 52 + frac) < 2 ^ 53 := by
    intro e frac h
    split_ifs <;> omega
  have hex : ∀ e : Nat, e < 2048 → (if e = 0 then 1 else e) - 1075 ≤ 972 := by
    intro e h
    split_ifs <;> omega
  have h1 := round_half_even_le
    ((if bits / 2 ^ 52 % 2048 = 0 then bits % 2 ^ 52 else 2 ^ 52 + bits % 2 ^ 52) * 10 ^ 6
      * 2 ^ ((if bits / 2 ^ 52 % 2048 = 0 then 1 else bits / 2 ^ 52 % 2048) - 1075))
    (2 ^ (1075 - (if bits / 2 ^ 52 % 2048 = 0 then 1 else bits / 2 ^ 52 % 2048)))
  have h2 := hm (bits / 2 ^ 52 % 2048) (bits % 2 ^ 52) (Nat.mod_lt _ (by positivity))
  have h3 := hex (bits / 2 ^ 52 % 2048) (Nat.mod_lt _ (by decide))
  have hpow : ∀ a b : Nat, a ≤ b → 2 ^ a ≤ 2 ^ b :=
    fun a b hab => Nat.pow_le_pow_right (by decide) hab
  have h4 := hpow _ 972 h3
  have h5 := Nat.div_le_self
    ((if bits / 2 ^ 52 % 2048 = 0 then bits % 2 ^ 52 else 2 ^ 52 + bits % 2 ^ 52) * 10 ^ 6
      * 2 ^ ((if bits / 2 ^ 52 % 2048 = 0 then 1 else bits / 2 ^ 52 % 2048) - 1075))
    (2 ^ (1075 - (if bits / 2 ^ 52 % 2048 = 0 then 1 else bits / 2 ^ 52 % 2048)))
  have h6 : (if bits / 2 ^ 52 % 2048 = 0 then bits % 2 ^ 52 else 2 ^ 52 + bits % 2 ^ 52) * 10 ^ 6
      * 2 ^ ((if bits / 2 ^ 52 % 2048 = 0 then 1 else bits / 2 ^ 52 % 2048) - 1075)
      ≤ 2 ^ 53 * 10 ^ 6 * 2 ^ 972 :=
    Nat.mul_le_mul (Nat.mul_le_mul_right _ (le_of_lt h2)) h4
  have h7 : millionths bits ≤ 2 ^ 53 * 10 ^ 6 * 2 ^ 972 + 1 := by
    unfold millionths
    simp only
    omega
  rw [Nat.div_lt_iff_lt_mul (by positivity)]
  calc millionths bits ≤ 2 ^ 53 * 10 ^ 6 * 2 ^ 972 + 1 := h7
    _ < 10 ^ 310 * 10 ^ 6 := by norm_num

theorem fmt_f_finite (bits : Nat) (hfin : bits / 2 ^ 52 % 2048 ≠ 2047) :
    fmt_f bits = (if bits / 2 ^ 63 % 2 = 1 then "-" else "")
      ++ String.mk (dec_loop 310 (millionths bits / 10 ^ 6)
          ('.' :: pad_loop 6 (millionths bits % 10 ^ 6) [])) := by
  unfold fmt_f millionths
  simp only [hfin, if_false]

theorem fmt_f_not_finite (bits : Nat) (hinf : bits / 2 ^ 52 % 2048 = 2047) :
    fmt_f bits = (if bits / 2 ^ 63 % 2 = 1 then "-" else "")
      ++ (if bits % 2 ^ 52 = 0 then "inf" else "nan") := by
  unfold fmt_f
  simp only [hinf, if_true]

/-- A non-empty run of digits with value `n` reads back as `n`. -/
theorem toNat?_of_digits (ds : List Char) (n : Nat) (hne : ds ≠ [])
    (hdig : ∀ c ∈ ds, c.isDigit = true)
    (hval : ds.foldl (fun n c => n * 10 + (c.toNat - '0'.toNat)) 0 = n) :
    (String.mk ds).toNat? = some n := by
  have hall : (String.mk ds).all (fun c => c.isDigit) = true := by
    rw [String.all_eq, List.all_eq_true]
    exact hdig
  have hnonempty : (String.mk ds).isEmpty = false := by
    cases ds with
    | nil => exact absurd rfl hne
    | cons a rest =>
      have hpos := Char.utf8Size_pos a
      have hsize : (String.mk (a :: rest)).endPos ≠ 0 := by
        intro h
        have hb := congrArg String.Pos.byteIdx h
        simp [String.endPos, String.utf8ByteSize, String.utf8ByteSize.go] at hb
        omega
      simpa [String.isEmpty] using hsize
  rw [String.toNat?, String.isNat, hall, hnonempty, Bool.not_false, Bool.and_self, if_pos rfl,
    String.foldl_eq, hval]

/-- The text of a finite `double`: the digits of the integer part, a point, six
digits. -/
theorem fmt_f_finite_digits (bits : Nat) (hfin : bits / 2 ^ 52 % 2048 ≠ 2047) :
    ∃ ip fp : List Char,
      fmt_f bits = (if bits / 2 ^ 63 % 2 = 1 then "-" else "") ++ String.mk (ip ++ '.' :: fp)
        ∧ ip ≠ [] ∧ (∀ c ∈ ip, c.isDigit = true)
        ∧ (String.mk ip).toNat? = some (millionths bits / 10 ^ 6)
        ∧ fp.length = 6 ∧ (∀ c ∈ fp, c.isDigit = true)
        ∧ (String.mk fp).toNat? = some (millionths bits % 10 ^ 6) := by
  obtain ⟨fp, hfp, hlen, hfdig, hfval⟩ := pad_loop_spec 6 (millionths bits % 10 ^ 6) []
  obtain ⟨ip, hip, hne, hidig, _, _, hival⟩ :=
    dec_loop_spec 310 (millionths bits / 10 ^ 6) ('.' :: fp) (millionths_lt bits) (by decide)
  rw [List.append_nil] at hfp
  refine ⟨ip, fp, ?_, hne, hidig, toNat?_of_digits ip _ hne hidig hival, hlen, hfdig, ?_⟩
  · rw [fmt_f_finite bits hfin, hfp, hip]
  · apply toNat?_of_digits fp _ _ hfdig
    · rw [hfval, Nat.mod_mod]
    · intro h
      rw [h] at hlen
      exact absurd hlen (by decide)

/-- C16 as stated fails at the infinity (bits `0x7FF0000000000000`): `%f` writes `inf`,
a text with no decimal point and no digit. -/
theorem print_expr_float_inf :
    print_expr (expr_float 0x7FF0000000000000) = Outcome.done "inf"
      ∧ '.' ∉ "inf".data ∧ ∀ c ∈ "inf".data, c.isDigit = false := by
  decide

/-- C16, amended: for every `double` `v` given by its 64 bits, if `v` is finite then
`print_expr (expr_float v)` emits a `-` when the sign bit is set, then the decimal
digits of the integer part (at least one), a point and exactly six digits, which
together read as the magnitude of `v` in millionths rounded to nearest-even; if `v` is
an infinity or a NaN it emits `inf` or `nan` after the same sign. -/
theorem print_expr_float (v : Nat) (hv : v < 2 ^ 64) :
    (v / 2 ^ 52 % 2048 ≠ 2047 →
      ∃ ip fp : List Char,
        print_expr (expr_float v)
            = Outcome.done ((if v / 2 ^ 63 % 2 = 1 then "-" else "") ++ String.mk (ip ++ '.' :: fp))
          ∧ ip ≠ [] ∧ (∀ c ∈ ip, c.isDigit = true)
          ∧ (String.mk ip).toNat? = some (millionths v / 10 ^ 6)
          ∧ fp.length = 6 ∧ (∀ c ∈ fp, c.isDigit = true)
          ∧ (String.mk fp).toNat? = some (millionths v % 10 ^ 6))
      ∧ (v / 2 ^ 52 % 2048 = 2047 →
        print_expr (expr_float v)
          = Outcome.done ((if v / 2 ^ 63 % 2 = 1 then "-" else "")
              ++ (if v % 2 ^ 52 = 0 then "inf" else "nan"))) := by
  have hp : print_expr (expr_float v) = Outcome.done (fmt_f v) := by
    rw [expr_float, expr_alloc, Expr.store, print_expr, Nat.mod_eq_of_lt hv]
    rfl
  constructor
  · intro hfin
    obtain ⟨ip, fp, h⟩ := fmt_f_finite_digits v hfin
    exact ⟨ip, fp, by rw [hp, h.1], h.2⟩
  · intro hinf
    rw [hp, fmt_f_not_finite v hinf]

/-- C16, amended, at `3.14` (bits `0x40091EB851EB851F`): `Float(3.14)` prints as
`3.140000` and `Unary('-', Float(3.14))` as `(- 3.140000)`. -/
theorem print_expr_float_witness :
    (∃ ip fp : List Char,
        print_expr (expr_float 0x40091EB851EB851F)
            = Outcome.done ((if 0x40091EB851EB851F / 2 ^ 63 % 2 = 1 then "-" else "")
                ++ String.mk (ip ++ '.' :: fp))
          ∧ ip ≠ [] ∧ (∀ c ∈ ip, c.isDigit = true)
          ∧ (String.mk ip).toNat? = some (millionths 0x40091EB851EB851F / 10 ^ 6)
          ∧ fp.length = 6 ∧ (∀ c ∈ fp, c.isDigit = true)
          ∧ (String.mk fp).toNat? = some (millionths 0x40091EB851EB851F % 10 ^ 6))
      ∧ millionths 0x40091EB851EB851F = 3140000
      ∧ print_expr (expr_float 0x40091EB851EB851F) = Outcome.done "3.140000"
      ∧ print_expr (expr_unary 45 (expr_float 0x40091EB851EB851F))
          = Outcome.done "(- 3.140000)" :=
  ⟨(print_expr_float 0x40091EB851EB851F (by decide)).1 (by decide), by decide, by decide,
    by decide⟩

/-! ## Induction over a tree all of whose nodes satisfy a condition -/

theorem self_mem_nodes (n : Node) : n ∈ n.nodes := by
  cases n with
  | type t =>
    cases t with
    | mk kind u => cases u <;> simp [Node.nodes, nodes_type]
  | expr e =>
    cases e with
    | mk kind u => cases u <;> simp [Node.nodes, nodes_expr]

theorem nodes_of_child (n c : Node) (hc : c ∈ n.children) : ∀ m ∈ c.nodes, m ∈ n.nodes := by
  intro m hm
  cases n with
  | type t =>
    cases t with
    | mk kind u =>
      cases u <;>
        simp only [Node.children, TypespecUnion.children, List.mem_cons, List.mem_singleton,
          List.mem_append, List.mem_map, List.not_mem_nil, or_false] at hc <;>
        simp only [Node.nodes, nodes_type, List.mem_cons, List.mem_append,
          mem_nodes_type_list]
      case ptr elem =>
        subst hc
        exact Or.inr hm
      case array elem size =>
        rcases hc with rfl | rfl
        · exact Or.inr (Or.inl hm)
        · exact Or.inr (Or.inr hm)
      case func args num ret =>
        rcases hc with ⟨a, ha, rfl⟩ | rfl
        · exact Or.inr (Or.inl ⟨a, ha, hm⟩)
        · exact Or.inr (Or.inr hm)
  | expr e =>
    cases e with
    | mk kind u =>
      cases u <;>
        simp only [Node.children, ExprUnion.children, List.mem_cons, List.mem_singleton,
          List.mem_append, List.mem_map, List.not_mem_nil, or_false] at hc <;>
        simp only [Node.nodes, nodes_expr, List.mem_cons, List.mem_append,
          mem_nodes_expr_list]
      case cast_expr type expr =>
        rcases hc with rfl | rfl
        · exact Or.inr (Or.inl hm)
        · exact Or.inr (Or.inr hm)
      case call_expr expr args num =>
        rcases hc with rfl | ⟨a, ha, rfl⟩
        · exact Or.inr (Or.inl hm)
        · exact Or.inr (Or.inr ⟨a, ha, hm⟩)
      case index_expr a b =>
        rcases hc with rfl | rfl
        · exact Or.inr (Or.inl hm)
        · exact Or.inr (Or.inr hm)
      case field_expr a b =>
        subst hc
        exact Or.inr hm
      case unary_expr o a =>
        subst hc
        exact Or.inr hm
      case binary_expr o a b =>
        rcases hc with rfl | rfl
        · exact Or.inr (Or.inl hm)
        · exact Or.inr (Or.inr hm)
      case ternary_expr a b c =>
        rcases hc with rfl | rfl | rfl
        · exact Or.inr (Or.inl (Or.inl hm))
        · exact Or.inr (Or.inl (Or.inr hm))
        · exact Or.inr (Or.inr hm)

/-- Induction over a tree all of whose nodes satisfy `ok`. -/
theorem node_induction_nodes (ok R : Node → Prop)
    (h : ∀ n, ok n → (∀ c ∈ n.children, R c) → R n) :
    ∀ n, (∀ m ∈ n.nodes, ok m) → R n := by
  apply node_induction
  intro n ih hall
  exact h n (hall n (self_mem_nodes n))
    (fun c hc => ih c hc (fun m hm => hall m (nodes_of_child n c hc m hm)))

/-! ## No space before the closing parenthesis (C13) -/

theorem ends_well_append_right (a b : List Char) (h : ends_well b = true) :
    ends_well (a ++ b) = true := by
  unfold ends_well at h ⊢
  rw [List.getLast?_append]
  cases hb : b.getLast? with
  | none => rw [hb] at h; exact absurd h (by decide)
  | some c => rw [hb] at h; exact h

theorem ends_well_concat (a : List Char) (c : Char) (hc : (c != ' ') = true) :
    ends_well (a ++ [c]) = true :=
  ends_well_append_right a [c] hc

theorem ends_well_of_digits (ds : List Char) (hne : ds ≠ [])
    (hdig : ∀ c ∈ ds, c.isDigit = true) : ends_well ds = true := by
  unfold ends_well
  cases hl : ds.getLast? with
  | none => exact absurd (List.getLast?_eq_none_iff.mp hl) hne
  | some c =>
    have hc := hdig c (List.mem_of_getLast?_eq_some hl)
    show (c != ' ') = true
    rw [bne_iff_ne]
    intro h
    rw [h] at hc
    exact absurd hc (by decide)

theorem fmt_u64_ends_well (v : Nat) : ends_well (fmt_u64 v).data = true := by
  obtain ⟨ds, hrun, hne, hdig, _⟩ :=
    dec_loop_spec 20 (v % 2 ^ 64) [] (lt_trans (Nat.mod_lt v (by decide)) (by decide)) (by decide)
  rw [List.append_nil] at hrun
  rw [fmt_u64, hrun]
  exact ends_well_of_digits ds hne hdig

theorem fmt_f_ends_well (bits : Nat) : ends_well (fmt_f bits).data = true := by
  by_cases hfin : bits / 2 ^ 52 % 2048 = 2047
  · rw [fmt_f_not_finite bits hfin, String.data_append]
    apply ends_well_append_right
    split_ifs <;> decide
  · obtain ⟨ip, fp, h, _, _, _, hlen, hdig, _⟩ := fmt_f_finite_digits bits hfin
    rw [h, String.data_append]
    apply ends_well_append_right
    show ends_well (ip ++ '.' :: fp) = true
    rw [← List.singleton_append, ← List.append_assoc]
    apply ends_well_append_right
    apply ends_well_of_digits fp _ hdig
    intro h0
    rw [h0] at hlen
    exact absurd hlen (by decide)

/-- The text of an argument loop is empty or does not end in a space, when the texts
of the elements do not. -/
theorem print_type_loop_ends_well (args : List Typespec)
    (h : ∀ a ∈ args, ∀ t, print_type a = Outcome.done t → ends_well t.data = true) :
    ∀ n t, print_type_loop args n = Outcome.done t → t = "" ∨ ends_well t.data = true := by
  induction args with
  | nil =>
    intro n t ht
    cases n with
    | zero =>
      simp only [print_type_loop, printf, Outcome.done.injEq] at ht
      exact Or.inl ht.symm
    | succ n => simp [print_type_loop] at ht
  | cons a rest ih =>
    intro n t ht
    cases n with
    | zero =>
      simp only [print_type_loop, printf, Outcome.done.injEq] at ht
      exact Or.inl ht.symm
    | succ n =>
      simp only [print_type_loop, seq_done_iff, printf, Outcome.done.injEq] at ht
      obtain ⟨x, y, ⟨x1, ta, _, hta, rfl⟩, htl, rfl⟩ := ht
      right
      rcases ih (fun b hb => h b (List.mem_cons_of_mem a hb)) n y htl with rfl | hy
      · rw [String.append_empty, String.data_append]
        exact ends_well_append_right _ _ (h a (List.mem_cons_self a rest) ta hta)
      · rw [String.data_append]
        exact ends_well_append_right _ _ hy

theorem print_expr_loop_ends_well (args : List Expr)
    (h : ∀ a ∈ args, ∀ t, print_expr a = Outcome.done t → ends_well t.data = true) :
    ∀ n t, print_expr_loop args n = Outcome.done t → t = "" ∨ ends_well t.data = true := by
  induction args with
  | nil =>
    intro n t ht
    cases n with
    | zero =>
      simp only [print_expr_loop, printf, Outcome.done.injEq] at ht
      exact Or.inl ht.symm
    | succ n => simp [print_expr_loop] at ht
  | cons a rest ih =>
    intro n t ht
    cases n with
    | zero =>
      simp only [print_expr_loop, printf, Outcome.done.injEq] at ht
      exact Or.inl ht.symm
    | succ n =>
      simp only [print_expr_loop, seq_done_iff, printf, Outcome.done.injEq] at ht
      obtain ⟨x, y, ⟨x1, ta, _, hta, rfl⟩, htl, rfl⟩ := ht
      right
      rcases ih (fun b hb => h b (List.mem_cons_of_mem a hb)) n y htl with rfl | hy
      · rw [String.append_empty, String.data_append]
        exact ends_well_append_right _ _ (h a (List.mem_cons_self a rest) ta hta)
      · rw [String.data_append]
        exact ends_well_append_right _ _ hy

/-- A text closed by `)` after a part that does not end in a space. -/
theorem close_paren (x : String) (pre last : List Char) (hx : x.data = pre ++ last)
    (hl : ends_well last = true) :
    ends_well (x ++ ")").data = true
      ∧ ∃ body : List Char, (x ++ ")").data = body ++ [')'] ∧ ends_well body = true := by
  have hd : (x ++ ")").data = x.data ++ [')'] := String.data_append x ")"
  refine ⟨?_, x.data, hd, ?_⟩
  · rw [hd]
    exact ends_well_concat _ _ (by decide)
  · rw [hx]
    exact ends_well_append_right _ _ hl

/-- In a tree whose names are not empty and do not end in a space, the text of a node
is not empty and does not end in a space, and the text of a composite node is closed
by a `)` that follows a character other than a space. -/
theorem print_node_ends_well : ∀ n : Node, (∀ m ∈ n.nodes, m.names_end_well = true) →
    ∀ t, print_node n = Outcome.done t →
      ends_well t.data = true
        ∧ (n.composite = true →
          ∃ body : List Char, t.data = body ++ [')'] ∧ ends_well body = true) := by
  apply node_induction_nodes (fun m => m.names_end_well = true)
  intro n hok ih t ht
  cases n with
  | type ty =>
    cases ty with
    | mk kind u =>
      cases kind with
      | TYPESPEC_NAME =>
        cases u <;> simp only [print_node, print_type, printf, Outcome.done.injEq,
          reduceCtorEq] at ht
        subst ht
        exact ⟨hok, fun h => absurd h (by simp [Node.composite])⟩
      | TYPESPEC_FUNC =>
        cases u <;> simp only [print_node, print_type, seq_done_iff, printf, Outcome.done.injEq,
          reduceCtorEq, false_and, and_false, exists_false, exists_and_left, exists_eq_left',
          exists_eq_left] at ht
        case func args num ret =>
          obtain ⟨x, ⟨x1, _, tr, hr, rfl⟩, rfl⟩ := ht
          have hret := (ih (.type ret) (by simp [Node.children, TypespecUnion.children]) tr hr).1
          have h := close_paren (x1 ++ tr) _ _ (String.data_append x1 tr) hret
          exact ⟨h.1, fun _ => h.2⟩
      | TYPESPEC_ARRAY =>
        cases u <;> simp only [print_node, print_type, seq_done_iff, printf, Outcome.done.injEq,
          reduceCtorEq, false_and, and_false, exists_false, exists_and_left, exists_eq_left',
          exists_eq_left] at ht
        case array elem size =>
          obtain ⟨x, ⟨x1, _, ts, hs, rfl⟩, rfl⟩ := ht
          have hsz := (ih (.expr size) (by simp [Node.children, TypespecUnion.children]) ts hs).1
          have h := close_paren (x1 ++ ts) _ _ (String.data_append x1 ts) hsz
          exact ⟨h.1, fun _ => h.2⟩
      | TYPESPEC_PTR =>
        cases u <;> simp only [print_node, print_type, seq_done_iff, printf, Outcome.done.injEq,
          reduceCtorEq, false_and, and_false, exists_false, exists_and_left, exists_eq_left',
          exists_eq_left] at ht
        case ptr elem =>
          obtain ⟨x, ⟨te, he, rfl⟩, rfl⟩ := ht
          have hel := (ih (.type elem) (by simp [Node.children, TypespecUnion.children]) te he).1
          have h := close_paren ("(ptr " ++ te) _ _ (String.data_append "(ptr " te) hel
          exact ⟨h.1, fun _ => h.2⟩
      | other tag => simp [print_node, print_type, assert_0] at ht
  | expr e =>
    cases e with
    | mk kind u =>
      cases kind with
      | EXPR_INT =>
        cases u <;> simp only [print_node, print_expr, printf, Outcome.done.injEq,
          reduceCtorEq] at ht
        subst ht
        exact ⟨fmt_u64_ends_well _, fun h => absurd h (by simp [Node.composite])⟩
      | EXPR_FLOAT =>
        cases u <;> simp only [print_node, print_expr, printf, Outcome.done.injEq,
          reduceCtorEq] at ht
        subst ht
        exact ⟨fmt_f_ends_well _, fun h => absurd h (by simp [Node.composite])⟩
      | EXPR_STR =>
        cases u <;> simp only [print_node, print_expr, printf, Outcome.done.injEq,
          reduceCtorEq] at ht
        subst ht
        refine ⟨?_, fun h => absurd h (by simp [Node.composite])⟩
        rw [String.data_append]
        exact ends_well_concat _ _ (by decide)
      | EXPR_NAME =>
        cases u <;> simp only [print_node, print_expr, printf, Outcome.done.injEq,
          reduceCtorEq] at ht
        subst ht
        exact ⟨hok, fun h => absurd h (by simp [Node.composite])⟩
      | EXPR_CAST =>
        cases u <;> simp only [print_node, print_expr, seq_done_iff, printf, Outcome.done.injEq,
          reduceCtorEq, false_and, and_false, exists_false, exists_and_left, exists_eq_left',
          exists_eq_left] at ht
        case cast_expr type expr =>
          obtain ⟨x, ⟨x1, _, te, he, rfl⟩, rfl⟩ := ht
          have hex := (ih (.expr expr) (by simp [Node.children, ExprUnion.children]) te he).1
          have h := close_paren (x1 ++ te) _ _ (String.data_append x1 te) hex
          exact ⟨h.1, fun _ => h.2⟩
      | EXPR_CALL =>
        cases u <;> simp only [print_node, print_expr, seq_done_iff, printf, Outcome.done.injEq,
          reduceCtorEq, false_and, and_false, exists_false, exists_and_left, exists_eq_left',
          exists_eq_left] at ht
        case call_expr expr args num =>
          obtain ⟨x, ⟨x1, ⟨tf, hf, rfl⟩, tl, hl, rfl⟩, rfl⟩ := ht
          have hcallee := (ih (.expr expr) (by simp [Node.children, ExprUnion.children]) tf hf).1
          have hloop := print_expr_loop_ends_well args
            (fun a ha ta hta => (ih (.expr a)
              (by simp only [Node.children, ExprUnion.children, List.mem_cons, List.mem_map]
                  exact Or.inr ⟨a, ha, rfl⟩) ta hta).1) num tl hl
          rcases hloop with rfl | hloop
          · have h := close_paren ("(" ++ tf ++ "") "(".data tf.data
              (by rw [String.append_empty, String.data_append]) hcallee
            exact ⟨h.1, fun _ => h.2⟩
          · have h := close_paren ("(" ++ tf ++ tl) _ _ (String.data_append ("(" ++ tf) tl) hloop
            exact ⟨h.1, fun _ => h.2⟩
      | EXPR_INDEX =>
        cases u <;> simp only [print_node, print_expr, seq_done_iff, printf, Outcome.done.injEq,
          reduceCtorEq, false_and, and_false, exists_false, exists_and_left, exists_eq_left',
          exists_eq_left] at ht
        case index_expr expr index =>
          obtain ⟨x, ⟨x1, _, te, he, rfl⟩, rfl⟩ := ht
          have hex := (ih (.expr index) (by simp [Node.children, ExprUnion.children]) te he).1
          have h := close_paren (x1 ++ te) _ _ (String.data_append x1 te) hex
          exact ⟨h.1, fun _ => h.2⟩
      | EXPR_FIELD =>
        cases u <;> simp only [print_node, print_expr, seq_done_iff, printf, Outcome.done.injEq,
          reduceCtorEq, false_and, and_false, exists_false, exists_and_left, exists_eq_left',
          exists_eq_left] at ht
        case field_expr expr name =>
          obtain ⟨x, ⟨te, _, rfl⟩, rfl⟩ := ht
          have hname : ends_well name.data = true := hok
          have h := close_paren ("(field " ++ te ++ (" " ++ fmt_s name))
            ("(field ".data ++ te.data ++ " ".data) name.data
            (by simp only [String.data_append, fmt_s, List.append_assoc]) hname
          have e : "(field " ++ te ++ (" " ++ fmt_s name ++ ")")
              = "(field " ++ te ++ (" " ++ fmt_s name) ++ ")" := by
            simp only [String.append_assoc]
          rw [e]
          exact ⟨h.1, fun _ => h.2⟩
      | EXPR_COMPOUND =>
        have hc : print_node (.expr (.mk .EXPR_COMPOUND u)) = Outcome.done "(compound ...)" := rfl
        rw [hc, Outcome.done.injEq] at ht
        subst ht
        exact ⟨by decide, fun h => absurd h (by simp [Node.composite])⟩
      | EXPR_UNARY =>
        cases u <;> simp only [print_node, print_expr, seq_done_iff, printf, Outcome.done.injEq,
          reduceCtorEq, false_and, and_false, exists_false, exists_and_left, exists_eq_left',
          exists_eq_left] at ht
        case unary_expr op expr =>
          obtain ⟨x, ⟨te, he, rfl⟩, rfl⟩ := ht
          have hex := (ih (.expr expr) (by simp [Node.children, ExprUnion.children]) te he).1
          have h := close_paren ("(" ++ fmt_c op ++ " " ++ te) _ _
            (String.data_append ("(" ++ fmt_c op ++ " ") te) hex
          exact ⟨h.1, fun _ => h.2⟩
      | EXPR_BINARY =>
        cases u <;> simp only [print_node, print_expr, seq_done_iff, printf, Outcome.done.injEq,
          reduceCtorEq, false_and, and_false, exists_false, exists_and_left, exists_eq_left',
          exists_eq_left] at ht
        case binary_expr op left right =>
          obtain ⟨x, ⟨x1, _, te, he, rfl⟩, rfl⟩ := ht
          have hex := (ih (.expr right) (by simp [Node.children, ExprUnion.children]) te he).1
          have h := close_paren (x1 ++ te) _ _ (String.data_append x1 te) hex
          exact ⟨h.1, fun _ => h.2⟩
      | EXPR_TERNARY =>
        cases u <;> simp only [print_node, print_expr, seq_done_iff, printf, Outcome.done.injEq,
          reduceCtorEq, false_and, and_false, exists_false, exists_and_left, exists_eq_left',
          exists_eq_left] at ht
        case ternary_expr c a b =>
          obtain ⟨x, ⟨x1, _, te, he, rfl⟩, rfl⟩ := ht
          have hex := (ih (.expr b) (by simp [Node.children, ExprUnion.children]) te he).1
          have h := close_paren (x1 ++ te) _ _ (String.data_append x1 te) hex
          exact ⟨h.1, fun _ => h.2⟩
      | other tag => simp [print_node, print_expr, assert_0] at ht

/-- C13: for a composite node (Pointer, Array, Function; Cast, Call, Index, Field,
Unary, Binary, Ternary) that prints as `t`, in whose tree every name, identifier and
field name is non-empty and does not end in a space, `t` ends with `)` and what stands
before that `)` is not empty and does not end in a space. -/
theorem print_node_no_space_before_close (n : Node) (t : String) (hc : n.composite = true)
    (hnames : ∀ m ∈ n.nodes, m.names_end_well = true)
    (ht : print_node n = Outcome.done t) :
    ∃ body : List Char, t.data = body ++ [')'] ∧ body ≠ [] ∧ body.getLast? ≠ some ' ' := by
  obtain ⟨body, hbody, hwell⟩ := (print_node_ends_well n hnames t ht).2 hc
  refine ⟨body, hbody, ?_, ?_⟩
  · intro h
    rw [h] at hwell
    exact absurd hwell (by decide)
  · intro h
    unfold ends_well at hwell
    rw [h] at hwell
    exact absurd hwell (by decide)

/-- C13 at `Call(Name("fact"), [Int(42)])`: the text `(fact 42)` is `(fact 42` followed
by `)`. -/
theorem print_node_no_space_before_close_witness :
    ∃ body : List Char, "(fact 42)".data = body ++ [')'] ∧ body ≠ []
      ∧ body.getLast? ≠ some ' ' :=
  print_node_no_space_before_close (.expr (expr_call (expr_name "fact") [expr_int 42] 1))
    "(fact 42)" (by decide) (by decide) (by decide)

/-! ## Balanced parentheses (C18) -/

theorem balanced_nil : balanced [] := by
  constructor
  · rfl
  · intro k
    simp

theorem paren_free_count (l : List Char) (h : paren_free l = true) :
    l.count '(' = 0 ∧ l.count ')' = 0 := by
  unfold paren_free at h
  rw [List.all_eq_true] at h
  constructor
  · rw [List.count_eq_zero]
    intro hm
    have := h _ hm
    simp at this
  · rw [List.count_eq_zero]
    intro hm
    have := h _ hm
    simp at this

theorem paren_free_take (l : List Char) (k : Nat) (h : paren_free l = true) :
    paren_free (l.take k) = true := by
  unfold paren_free at h ⊢
  rw [List.all_eq_true] at h ⊢
  intro c hc
  exact h c (List.mem_of_mem_take hc)

theorem balanced_of_paren_free (l : List Char) (h : paren_free l = true) : balanced l := by
  constructor
  · rw [(paren_free_count l h).1, (paren_free_count l h).2]
  · intro k
    rw [(paren_free_count _ (paren_free_take l k h)).2]
    exact Nat.zero_le _

theorem balanced_append (a b : List Char) (ha : balanced a) (hb : balanced b) :
    balanced (a ++ b) := by
  constructor
  · rw [List.count_append, List.count_append, ha.1, hb.1]
  · intro k
    rw [List.take_append_eq_append_take, List.count_append, List.count_append]
    exact Nat.add_le_add (ha.2 k) (hb.2 (k - a.length))

theorem balanced_parens (inner : List Char) (h : balanced inner) :
    balanced ('(' :: inner ++ [')']) := by
  constructor
  · simp only [List.cons_append, List.count_cons, List.count_append, List.count_nil, h.1]
    simp
  · intro k
    cases k with
    | zero => simp
    | succ k =>
      rw [List.cons_append, List.take_succ_cons, List.take_append_eq_append_take]
      simp only [List.count_cons, List.count_append]
      have h1 := h.2 k
      have h2 : List.count ')' (List.take (k - inner.length) [')']) ≤ 1 := by
        cases (k - inner.length) <;> simp
      have h3 : List.count '(' (List.take (k - inner.length) [')']) = 0 := by
        cases (k - inner.length) <;> simp
      simp only [h3]
      simp
      omega

/-- The text `(` ++ keyword ++ inner ++ `)` is balanced when the keyword has no
parenthesis and the inner text is balanced. -/
theorem balanced_text (kw inner : List Char) (hkw : paren_free kw = true)
    (hin : balanced inner) : balanced ('(' :: (kw ++ inner) ++ [')']) :=
  balanced_parens _ (balanced_append _ _ (balanced_of_paren_free _ hkw) hin)

theorem paren_free_of_digits (ds : List Char) (hdig : ∀ c ∈ ds, c.isDigit = true) :
    paren_free ds = true := by
  unfold paren_free
  rw [List.all_eq_true]
  intro c hc
  have h := hdig c hc
  have h1 : c ≠ '(' := by
    intro e
    rw [e] at h
    exact absurd h (by decide)
  have h2 : c ≠ ')' := by
    intro e
    rw [e] at h
    exact absurd h (by decide)
  simp [h1, h2]

theorem fmt_u64_paren_free (v : Nat) : paren_free (fmt_u64 v).data = true := by
  obtain ⟨ds, hrun, _, hdig, _⟩ :=
    dec_loop_spec 20 (v % 2 ^ 64) [] (lt_trans (Nat.mod_lt v (by decide)) (by decide)) (by decide)
  rw [List.append_nil] at hrun
  rw [fmt_u64, hrun]
  exact paren_free_of_digits ds hdig

theorem paren_free_append (a b : List Char) (ha : paren_free a = true)
    (hb : paren_free b = true) : paren_free (a ++ b) = true := by
  unfold paren_free at *
  rw [List.all_append, ha, hb]
  rfl

/-- The text of an argument loop is balanced when the texts of the elements are. -/
theorem print_type_loop_balanced (args : List Typespec)
    (h : ∀ a ∈ args, ∀ t, print_type a = Outcome.done t → balanced t.data) :
    ∀ n t, print_type_loop args n = Outcome.done t → balanced t.data := by
  induction args with
  | nil =>
    intro n t ht
    cases n with
    | zero =>
      simp only [print_type_loop, printf, Outcome.done.injEq] at ht
      rw [← ht]
      exact balanced_nil
    | succ n => simp [print_type_loop] at ht
  | cons a rest ih =>
    intro n t ht
    cases n with
    | zero =>
      simp only [print_type_loop, printf, Outcome.done.injEq] at ht
      rw [← ht]
      exact balanced_nil
    | succ n =>
      simp only [print_type_loop, seq_done_iff, printf, Outcome.done.injEq] at ht
      obtain ⟨x, y, ⟨x1, ta, rfl, hta, rfl⟩, htl, rfl⟩ := ht
      rw [String.data_append, String.data_append]
      exact balanced_append _ _
        (balanced_append _ _ (balanced_of_paren_free _ (by decide))
          (h a (List.mem_cons_self a rest) ta hta))
        (ih (fun b hb => h b (List.mem_cons_of_mem a hb)) n y htl)

theorem print_expr_loop_balanced (args : List Expr)
    (h : ∀ a ∈ args, ∀ t, print_expr a = Outcome.done t → balanced t.data) :
    ∀ n t, print_expr_loop args n = Outcome.done t → balanced t.data := by
  induction args with
  | nil =>
    intro n t ht
    cases n with
    | zero =>
      simp only [print_expr_loop, printf, Outcome.done.injEq] at ht
      rw [← ht]
      exact balanced_nil
    | succ n => simp [print_expr_loop] at ht
  | cons a rest ih =>
    intro n t ht
    cases n with
    | zero =>
      simp only [print_expr_loop, printf, Outcome.done.injEq] at ht
      rw [← ht]
      exact balanced_nil
    | succ n =>
      simp only [print_expr_loop, seq_done_iff, printf, Outcome.done.injEq] at ht
      obtain ⟨x, y, ⟨x1, ta, rfl, hta, rfl⟩, htl, rfl⟩ := ht
      rw [String.data_append, String.data_append]
      exact balanced_append _ _
        (balanced_append _ _ (balanced_of_paren_free _ (by decide))
          (h a (List.mem_cons_self a rest) ta hta))
        (ih (fun b hb => h b (List.mem_cons_of_mem a hb)) n y htl)

/-- In a tree with no Float node and no parenthesis in a name, string, field name or
operator character, the text of every node has balanced parentheses. -/
theorem print_node_balanced : ∀ n : Node, (∀ m ∈ n.nodes, m.paren_ok = true) →
    ∀ t, print_node n = Outcome.done t → balanced t.data := by
  apply node_induction_nodes (fun m => m.paren_ok = true)
  intro n hok ih t ht
  cases n with
  | type ty =>
    cases ty with
    | mk kind u =>
      cases kind with
      | TYPESPEC_NAME =>
        cases u <;> simp only [print_node, print_type, printf, Outcome.done.injEq,
          reduceCtorEq] at ht
        subst ht
        exact balanced_of_paren_free _ hok
      | TYPESPEC_FUNC =>
        cases u <;> simp only [print_node, print_type, seq_done_iff, printf, Outcome.done.injEq,
          reduceCtorEq, false_and, and_false, exists_false, exists_and_left, exists_eq_left',
          exists_eq_left] at ht
        case func args num ret =>
          obtain ⟨x, ⟨x1, ⟨x2, ⟨tl, hl, rfl⟩, rfl⟩, tr, hr, rfl⟩, rfl⟩ := ht
          have hret := ih (.type ret) (by simp [Node.children, TypespecUnion.children]) tr hr
          have hloop := print_type_loop_balanced args
            (fun a ha ta hta => ih (.type a)
              (by simp only [Node.children, TypespecUnion.children, List.mem_append,
                    List.mem_map]
                  exact Or.inl ⟨a, ha, rfl⟩) ta hta) num tl hl
          have e : ("(func (" ++ tl ++ ") " ++ tr ++ ")").data
              = '(' :: ("func ".data ++ (('(' :: tl.data ++ [')']) ++ (" ".data ++ tr.data)))
                ++ [')'] := by
            simp only [String.data_append]
            simp
          rw [e]
          exact balanced_text _ _ (by decide)
            (balanced_append _ _ (balanced_parens _ hloop)
              (balanced_append _ _ (balanced_of_paren_free _ (by decide)) hret))
      | TYPESPEC_ARRAY =>
        cases u <;> simp only [print_node, print_type, seq_done_iff, printf, Outcome.done.injEq,
          reduceCtorEq, false_and, and_false, exists_false, exists_and_left, exists_eq_left',
          exists_eq_left] at ht
        case array elem size =>
          obtain ⟨x, ⟨x1, ⟨x2, ⟨t1, h1, rfl⟩, rfl⟩, t2, h2, rfl⟩, rfl⟩ := ht
          have hb1 := ih (.type elem) (by simp [Node.children, TypespecUnion.children]) t1 h1
          have hb2 := ih (.expr size) (by simp [Node.children, TypespecUnion.children]) t2 h2
          have e : ("(arr " ++ t1 ++ " " ++ t2 ++ ")").data
              = '(' :: ("arr ".data ++ (t1.data ++ (" ".data ++ t2.data))) ++ [')'] := by
            simp only [String.data_append]
            simp
          rw [e]
          exact balanced_text _ _ (by decide)
            (balanced_append _ _ hb1
              (balanced_append _ _ (balanced_of_paren_free _ (by decide)) hb2))
      | TYPESPEC_PTR =>
        cases u <;> simp only [print_node, print_type, seq_done_iff, printf, Outcome.done.injEq,
          reduceCtorEq, false_and, and_false, exists_false, exists_and_left, exists_eq_left',
          exists_eq_left] at ht
        case ptr elem =>
          obtain ⟨x, ⟨te, he, rfl⟩, rfl⟩ := ht
          have hb := ih (.type elem) (by simp [Node.children, TypespecUnion.children]) te he
          exact balanced_text "ptr ".data te.data (by decide) hb
      | other tag => simp [print_node, print_type, assert_0] at ht
  | expr e =>
    cases e with
    | mk kind u =>
      cases kind with
      | EXPR_INT =>
        cases u <;> simp only [print_node, print_expr, printf, Outcome.done.injEq,
          reduceCtorEq] at ht
        subst ht
        exact balanced_of_paren_free _ (fmt_u64_paren_free _)
      | EXPR_FLOAT =>
        exact absurd hok (by simp [Node.paren_ok])
      | EXPR_STR =>
        cases u <;> simp only [print_node, print_expr, printf, Outcome.done.injEq,
          reduceCtorEq] at ht
        subst ht
        simp only [Node.paren_ok, Bool.and_eq_true, decide_eq_true_eq] at hok
        rw [String.data_append, String.data_append]
        exact balanced_of_paren_free _
          (paren_free_append _ _ (paren_free_append _ _ (by decide) hok.2) (by decide))
      | EXPR_NAME =>
        cases u <;> simp only [print_node, print_expr, printf, Outcome.done.injEq,
          reduceCtorEq] at ht
        subst ht
        simp only [Node.paren_ok, Bool.and_eq_true, decide_eq_true_eq] at hok
        exact balanced_of_paren_free _ hok.2
      | EXPR_CAST =>
        cases u <;> simp only [print_node, print_expr, seq_done_iff, printf, Outcome.done.injEq,
          reduceCtorEq, false_and, and_false, exists_false, exists_and_left, exists_eq_left',
          exists_eq_left] at ht
        case cast_expr type expr =>
          obtain ⟨x, ⟨x1, ⟨x2, ⟨t1, h1, rfl⟩, rfl⟩, t2, h2, rfl⟩, rfl⟩ := ht
          have hb1 := ih (.type type) (by simp [Node.children, ExprUnion.children]) t1 h1
          have hb2 := ih (.expr expr) (by simp [Node.children, ExprUnion.children]) t2 h2
          have e : ("(cast " ++ t1 ++ " " ++ t2 ++ ")").data
              = '(' :: ("cast ".data ++ (t1.data ++ (" ".data ++ t2.data))) ++ [')'] := by
            simp only [String.data_append]
            simp
          rw [e]
          exact balanced_text _ _ (by decide)
            (balanced_append _ _ hb1
              (balanced_append _ _ (balanced_of_paren_free _ (by decide)) hb2))
      | EXPR_CALL =>
        cases u <;> simp only [print_node, print_expr, seq_done_iff, printf, Outcome.done.injEq,
          reduceCtorEq, false_and, and_false, exists_false, exists_and_left, exists_eq_left',
          exists_eq_left] at ht
        case call_expr expr args num =>
          obtain ⟨x, ⟨x1, ⟨tf, hf, rfl⟩, tl, hl, rfl⟩, rfl⟩ := ht
          have hcallee := ih (.expr expr) (by simp [Node.children, ExprUnion.children]) tf hf
          have hloop := print_expr_loop_balanced args
            (fun a ha ta hta => ih (.expr a)
              (by simp only [Node.children, ExprUnion.children, List.mem_cons, List.mem_map]
                  exact Or.inr ⟨a, ha, rfl⟩) ta hta) num tl hl
          have e : ("(" ++ tf ++ tl ++ ")").data
              = '(' :: ([] ++ (tf.data ++ tl.data)) ++ [')'] := by
            simp only [String.data_append]
            simp
          rw [e]
          exact balanced_text _ _ (by decide) (balanced_append _ _ hcallee hloop)
      | EXPR_INDEX =>
        cases u <;> simp only [print_node, print_expr, seq_done_iff, printf, Outcome.done.injEq,
          reduceCtorEq, false_and, and_false, exists_false, exists_and_left, exists_eq_left',
          exists_eq_left] at ht
        case index_expr expr index =>
          obtain ⟨x, ⟨x1, ⟨x2, ⟨t1, h1, rfl⟩, rfl⟩, t2, h2, rfl⟩, rfl⟩ := ht
          have hb1 := ih (.expr expr) (by simp [Node.children, ExprUnion.children]) t1 h1
          have hb2 := ih (.expr index) (by simp [Node.children, ExprUnion.children]) t2 h2
          have e : ("(index " ++ t1 ++ " " ++ t2 ++ ")").data
              = '(' :: ("index ".data ++ (t1.data ++ (" ".data ++ t2.data))) ++ [')'] := by
            simp only [String.data_append]
            simp
          rw [e]
          exact balanced_text _ _ (by decide)
            (balanced_append _ _ hb1
              (balanced_append _ _ (balanced_of_paren_free _ (by decide)) hb2))
      | EXPR_FIELD =>
        cases u <;> simp only [print_node, print_expr, seq_done_iff, printf, Outcome.done.injEq,
          reduceCtorEq, false_and, and_false, exists_false, exists_and_left, exists_eq_left',
          exists_eq_left] at ht
        case field_expr expr name =>
          obtain ⟨x, ⟨te, he, rfl⟩, rfl⟩ := ht
          have hb := ih (.expr expr) (by simp [Node.children, ExprUnion.children]) te he
          simp only [Node.paren_ok, Bool.and_eq_true, decide_eq_true_eq] at hok
          have e : ("(field " ++ te ++ (" " ++ fmt_s name ++ ")")).data
              = '(' :: ("field ".data ++ (te.data ++ (" ".data ++ name.data))) ++ [')'] := by
            simp only [String.data_append, fmt_s]
            simp
          rw [e]
          exact balanced_text _ _ (by decide)
            (balanced_append _ _ hb
              (balanced_of_paren_free _ (paren_free_append _ _ (by decide) hok.2)))
      | EXPR_COMPOUND =>
        have hc : print_node (.expr (.mk .EXPR_COMPOUND u)) = Outcome.done "(compound ...)" := rfl
        rw [hc, Outcome.done.injEq] at ht
        subst ht
        exact balanced_text "compound ...".data [] (by decide) balanced_nil
      | EXPR_UNARY =>
        cases u <;> simp only [print_node, print_expr, seq_done_iff, printf, Outcome.done.injEq,
          reduceCtorEq, false_and, and_false, exists_false, exists_and_left, exists_eq_left',
          exists_eq_left] at ht
        case unary_expr op expr =>
          obtain ⟨x, ⟨te, he, rfl⟩, rfl⟩ := ht
          have hb := ih (.expr expr) (by simp [Node.children, ExprUnion.children]) te he
          simp only [Node.paren_ok, Bool.and_eq_true, decide_eq_true_eq] at hok
          have e : ("(" ++ fmt_c op ++ " " ++ te ++ ")").data
              = '(' :: (((fmt_c op).data ++ " ".data) ++ te.data) ++ [')'] := by
            simp only [String.data_append]
            simp
          rw [e]
          exact balanced_text _ _ (paren_free_append _ _ hok.2 (by decide)) hb
      | EXPR_BINARY =>
        cases u <;> simp only [print_node, print_expr, seq_done_iff, printf, Outcome.done.injEq,
          reduceCtorEq, false_and, and_false, exists_false, exists_and_left, exists_eq_left',
          exists_eq_left] at ht
        case binary_expr op left right =>
          obtain ⟨x, ⟨x1, ⟨x2, ⟨t1, h1, rfl⟩, rfl⟩, t2, h2, rfl⟩, rfl⟩ := ht
          have hb1 := ih (.expr left) (by simp [Node.children, ExprUnion.children]) t1 h1
          have hb2 := ih (.expr right) (by simp [Node.children, ExprUnion.children]) t2 h2
          simp only [Node.paren_ok, Bool.and_eq_true, decide_eq_true_eq] at hok
          have e : ("(" ++ fmt_c op ++ " " ++ t1 ++ " " ++ t2 ++ ")").data
              = '(' :: (((fmt_c op).data ++ " ".data) ++ (t1.data ++ (" ".data ++ t2.data)))
                ++ [')'] := by
            simp only [String.data_append]
            simp
          rw [e]
          exact balanced_text _ _ (paren_free_append _ _ hok.2 (by decide))
            (balanced_append _ _ hb1
              (balanced_append _ _ (balanced_of_paren_free _ (by decide)) hb2))
      | EXPR_TERNARY =>
        cases u <;> simp only [print_node, print_expr, seq_done_iff, printf, Outcome.done.injEq,
          reduceCtorEq, false_and, and_false, exists_false, exists_and_left, exists_eq_left',
          exists_eq_left] at ht
        case ternary_expr c a b =>
          obtain ⟨x, ⟨x1, ⟨x2, ⟨x3, ⟨x4, ⟨t1, h1, rfl⟩, rfl⟩, t2, h2, rfl⟩, rfl⟩,
            t3, h3, rfl⟩, rfl⟩ := ht
          have hb1 := ih (.expr c) (by simp [Node.children, ExprUnion.children]) t1 h1
          have hb2 := ih (.expr a) (by simp [Node.children, ExprUnion.children]) t2 h2
          have hb3 := ih (.expr b) (by simp [Node.children, ExprUnion.children]) t3 h3
          have e : ("(if " ++ t1 ++ " " ++ t2 ++ " " ++ t3 ++ ")").data
              = '(' :: ("if ".data ++ (t1.data ++ (" ".data ++ (t2.data
                  ++ (" ".data ++ t3.data))))) ++ [')'] := by
            simp only [String.data_append]
            simp
          rw [e]
          exact balanced_text _ _ (by decide)
            (balanced_append _ _ hb1
              (balanced_append _ _ (balanced_of_paren_free _ (by decide))
                (balanced_append _ _ hb2
                  (balanced_append _ _ (balanced_of_paren_free _ (by decide)) hb3))))
      | other tag => simp [print_node, print_expr, assert_0] at ht

/-- C18: for an expression or typespec node that prints as `t`, in whose tree there is
no Float node and no name, string value, field name or operator character with a
parenthesis in it, `t` has as many `(` as `)` and every prefix of `t` has at least as
many `(` as `)`. -/
theorem print_node_parens_balanced (n : Node) (t : String)
    (hok : ∀ m ∈ n.nodes, m.paren_ok = true) (ht : print_node n = Outcome.done t) :
    t.data.count '(' = t.data.count ')'
      ∧ ∀ k, (t.data.take k).count ')' ≤ (t.data.take k).count '(' :=
  print_node_balanced n hok t ht

/-- C18 at `Index(Field(Name("person"), "siblings"), Int(3))`: the text
`(index (field person siblings) 3)` is balanced. -/
theorem print_node_parens_balanced_witness :
    "(index (field person siblings) 3)".data.count '('
        = "(index (field person siblings) 3)".data.count ')'
      ∧ ∀ k, ("(index (field person siblings) 3)".data.take k).count ')'
          ≤ ("(index (field person siblings) 3)".data.take k).count '(' :=
  print_node_parens_balanced
    (.expr (expr_index (expr_field (expr_name "person") "siblings") (expr_int 3)))
    "(index (field person siblings) 3)" (by decide) (by decide)

end Ion
